import Mathlib

/-!
Verification of the LOD visibility scheduler and budgeted node cache of a
web3D point-cloud streaming library.

The development shallowly embeds two source modules:

* the budgeted LRU node cache (`LRU`, `LRUItem`, `touch`, `remove`,
  `getLRUItem`, `freeMemory`, `disposeSubtree`);
* the per-frame visibility scheduler (`Potree.updateVisibility` and its
  helpers `updateVisibilityStructures`, `updateChildVisibility`,
  `updateTreeNodeVisibility`, `shouldClip`, the `pointBudget` setter).

Octree nodes are a tree type `PCNode` parameterised over an abstract box
type `β` (for `Box3`), an abstract vector type `V` (for `Vector3`) and a
linear ordered field `K` of scalars (for JS numbers).  External three.js
geometry (distances, `Math.tan`, box intersection) is abstracted as
parameters in `Env`.  The doubly linked recency list of the cache is
represented with list links as node ids resolved through the id-to-item
map, mirroring the source's `Map<number, LRUItem>` store; each pointer
assignment of the source becomes one update of that map.
-/

/-- The scalar and per-node data of one octree node: identity, point count,
depth, load-state flags, the promoted-to-tree-node flag, and spatial extent
(bounding box, bounding sphere centre and radius). -/
structure NodeData (β V K : Type) where
  id : ℕ
  numPoints : ℕ
  level : ℕ
  loaded : Bool
  failed : Bool
  isTree : Bool
  boundingBox : β
  sphereCenter : V
  sphereRadius : K

/-- An octree node: its data plus up to eight optional child slots
(`children`), absent slots being `none`. -/
inductive PCNode (β V K : Type) : Type where
  | mk (data : NodeData β V K) (children : List (Option (PCNode β V K)))

namespace PCNode

variable {β V K : Type}

def data : PCNode β V K → NodeData β V K
  | .mk d _ => d

def children : PCNode β V K → List (Option (PCNode β V K))
  | .mk _ cs => cs

def id (n : PCNode β V K) : ℕ := n.data.id

def numPoints (n : PCNode β V K) : ℕ := n.data.numPoints

def level (n : PCNode β V K) : ℕ := n.data.level

def loaded (n : PCNode β V K) : Bool := n.data.loaded

def failed (n : PCNode β V K) : Bool := n.data.failed

def boundingBox (n : PCNode β V K) : β := n.data.boundingBox

/-- Number of nodes in the subtree rooted at this node (including itself). -/
def size : PCNode β V K → ℕ
  | .mk _ cs => 1 + go cs
where go : List (Option (PCNode β V K)) → ℕ
  | [] => 0
  | none :: rest => go rest
  | some c :: rest => c.size + go rest

/-- Modelled from the spec: `Node.traverse(visit)` (declared in the
`types` module, not included under `src/`) depth-first visits all
descendants of a node.  `descendants` is the list of nodes that visit
order produces. -/
def descendants : PCNode β V K → List (PCNode β V K)
  | .mk _ cs => go cs
where go : List (Option (PCNode β V K)) → List (PCNode β V K)
  | [] => []
  | none :: rest => go rest
  | some c :: rest => (c :: c.descendants) ++ go rest

/-- All node ids of the subtree rooted at this node (itself included). -/
def subtreeIds (n : PCNode β V K) : List ℕ :=
  n.id :: (n.descendants.map id)

end PCNode

/-! ### The id-to-item store of the cache

The source keeps `items : Map<number, LRUItem>`; items reference each
other through `next`/`previous` object pointers.  Here the store is an
association list keyed by node id and the pointers are node ids; a
pointer assignment `x.next = y` of the source is `modifyItem store x.id
(fun it => { it with next := ... })`. -/

/-- One doubly-linked-list cell of the cache: the stored node and the ids
of the neighbouring cells (`none` at the list boundary). -/
structure LRUItem (β V K : Type) where
  node : PCNode β V K
  previous : Option ℕ := none
  next : Option ℕ := none

def lookupItem {β V K : Type} : List (ℕ × LRUItem β V K) → ℕ → Option (LRUItem β V K)
  | [], _ => none
  | e :: rest, k => if e.1 = k then some e.2 else lookupItem rest k

/-- `Map.set`: replace the entry of an existing key in place, append a new
key at the end (JS `Map` preserves insertion order). -/
def setItem {β V K : Type} : List (ℕ × LRUItem β V K) → ℕ → LRUItem β V K →
    List (ℕ × LRUItem β V K)
  | [], k, v => [(k, v)]
  | e :: rest, k, v => if e.1 = k then (k, v) :: rest else e :: setItem rest k v

/-- Mutate the item stored under a key, a no-op when the key is absent
(a pointer assignment through a reference not reachable from the map has
no effect on the map). -/
def modifyItem {β V K : Type} : List (ℕ × LRUItem β V K) → ℕ →
    (LRUItem β V K → LRUItem β V K) → List (ℕ × LRUItem β V K)
  | [], _, _ => []
  | e :: rest, k, f => if e.1 = k then (e.1, f e.2) :: rest else e :: modifyItem rest k f

/-- `Map.delete`. -/
def eraseItem {β V K : Type} : List (ℕ × LRUItem β V K) → ℕ → List (ℕ × LRUItem β V K)
  | [], _ => []
  | e :: rest, k => if e.1 = k then rest else e :: eraseItem rest k

/-- The budgeted LRU node cache: ids of the first (least recent) and last
(most recent) cells, the tracked resident point total, the id-to-item
store, and the configured point budget. -/
structure LRU (β V K : Type) where
  first : Option ℕ := none
  last : Option ℕ := none
  numPoints : ℤ := 0
  items : List (ℕ × LRUItem β V K) := []
  pointBudget : ℤ := 1000000

namespace LRU

variable {β V K : Type}

def size (lru : LRU β V K) : ℕ := lru.items.length

def has (lru : LRU β V K) (node : PCNode β V K) : Bool :=
  (lookupItem lru.items node.id).isSome

/-- `addNew(node)`: append a fresh item as the new most-recent cell and
account its points. -/
def addNew (lru : LRU β V K) (node : PCNode β V K) : LRU β V K :=
  let item : LRUItem β V K := ⟨node, lru.last, none⟩
  let items1 := match lru.last with
    | some lastId => modifyItem lru.items lastId (fun it => { it with next := some node.id })
    | none => lru.items
  let first1 := match lru.first with
    | none => some node.id
    | some f => some f
  { lru with
    first := first1
    last := some node.id
    items := setItem items1 node.id item
    numPoints := lru.numPoints + node.numPoints }

/-- `touchExisting(item)`: move the cell of an already-present node to the
most-recent position by pointer relinking, following the source's three
cases (head of a longer list / already the tail / interior cell). -/
def touchExisting (lru : LRU β V K) (itemId : ℕ) : LRU β V K :=
  match lookupItem lru.items itemId with
  | none => lru
  | some item =>
    match item.previous with
    | none =>
      match item.next with
      | some nextId =>
        let items1 := modifyItem lru.items nextId (fun it => { it with previous := none })
        let oldLast := lru.last
        let items2 := modifyItem items1 itemId
          (fun it => { it with previous := oldLast, next := none })
        let items3 := match oldLast with
          | some lastId => modifyItem items2 lastId (fun it => { it with next := some itemId })
          | none => items2
        { lru with first := some nextId, last := some itemId, items := items3 }
      | none => lru
    | some prevId =>
      match item.next with
      | none => lru
      | some nextId =>
        let items1 := modifyItem lru.items prevId (fun it => { it with next := some nextId })
        let items2 := modifyItem items1 nextId (fun it => { it with previous := some prevId })
        let oldLast := lru.last
        let items3 := modifyItem items2 itemId
          (fun it => { it with previous := oldLast, next := none })
        let items4 := match oldLast with
          | some lastId => modifyItem items3 lastId (fun it => { it with next := some itemId })
          | none => items3
        { lru with last := some itemId, items := items4 }

/-- `touch(node)`: no-op when the node is not loaded; otherwise refresh an
existing cell or append a new one. -/
def touch (lru : LRU β V K) (node : PCNode β V K) : LRU β V K :=
  if node.loaded = false then lru
  else
    match lookupItem lru.items node.id with
    | some _ => lru.touchExisting node.id
    | none => lru.addNew node

/-- `remove(node)`: silently return when the node has no item; otherwise
detach the cell (fixing `first`/`last` at the boundaries), delete it from
the store and subtract the node's points. -/
def remove (lru : LRU β V K) (node : PCNode β V K) : LRU β V K :=
  match lookupItem lru.items node.id with
  | none => lru
  | some item =>
    let lru1 :=
      if lru.items.length = 1 then { lru with first := none, last := none }
      else
        let lruA :=
          match item.previous with
          | none =>
            { lru with
              first := item.next
              items := (match item.next with
                | some nextId => modifyItem lru.items nextId (fun it => { it with previous := none })
                | none => lru.items) }
          | some _ => lru
        let lruB :=
          match item.next with
          | none =>
            { lruA with
              last := item.previous
              items := (match item.previous with
                | some prevId => modifyItem lruA.items prevId (fun it => { it with next := none })
                | none => lruA.items) }
          | some _ => lruA
        match item.previous, item.next with
        | some prevId, some nextId =>
          { lruB with items :=
              (modifyItem (modifyItem lruB.items prevId (fun it => { it with next := some nextId }))
                nextId (fun it => { it with previous := some prevId })) }
        | _, _ => lruB
    { lru1 with
      items := eraseItem lru1.items node.id
      numPoints := lru1.numPoints - node.numPoints }

/-- `getLRUItem()`: the node of the least-recent cell, if any. -/
def getLRUItem (lru : LRU β V K) : Option (PCNode β V K) :=
  match lru.first with
  | none => none
  | some fId => (lookupItem lru.items fId).map (·.node)

/-- `disposeSubtree(node)`: collect the node and every still-loaded
descendant, then dispose and remove each.  `dispose()` only releases the
point payload (external memory), so on the modelled state the pass is the
sequence of `remove` calls. -/
def disposeSubtree (lru : LRU β V K) (node : PCNode β V K) : LRU β V K :=
  let nodesToDispose := node :: node.descendants.filter (fun n => n.loaded)
  nodesToDispose.foldl (fun acc n => acc.remove n) lru

/-- The `while (numPoints > pointBudget * 2)` eviction loop of
`freeMemory`, run with explicit fuel (on well-formed caches every
iteration removes at least the least-recent item, so `items.length` fuel
never runs out). -/
def freeLoop (lru : LRU β V K) : ℕ → LRU β V K
  | 0 => lru
  | fuel + 1 =>
    if lru.numPoints > lru.pointBudget * 2 then
      match lru.getLRUItem with
      | some node => (lru.disposeSubtree node).freeLoop fuel
      | none => lru.freeLoop fuel
    else lru

/-- `freeMemory()`: return at once when at most one item is present,
otherwise run the eviction loop. -/
def freeMemory (lru : LRU β V K) : LRU β V K :=
  if lru.items.length ≤ 1 then lru
  else lru.freeLoop lru.items.length

end LRU

/-! ### The visibility scheduler

External three.js collaborators (vector distance, `Math.tan`, `Math.PI`,
`Number.MAX_VALUE`, box-box intersection) are abstracted as the fields of
`Env`; the per-cloud frustum and camera-local position, which the source
derives from camera and world matrices, are abstract per-cloud data. -/

/-- The external numeric and geometric collaborators of the scheduler. -/
structure Env (β V K : Type) where
  distTo : V → V → K
  tan : K → K
  pi : K
  maxValue : K
  intersectsBox : β → β → Bool

/-- `camera.type === 'PerspectiveCamera'` or an orthographic camera. -/
inductive CameraKind : Type where
  | perspective
  | orthographic
deriving DecidableEq

/-- The camera fields the scheduler reads: the kind, the perspective
vertical field of view (in degrees, as `PerspectiveCamera.fov`), and the
orthographic `top`/`bottom` planes. -/
structure CameraM (K : Type) where
  kind : CameraKind
  fov : K
  top : K
  bottom : K

/-- Modelled from the spec: the `ClipMode` enumeration of the materials
module (not included under `src/`); the clip test only applies in
`CLIP_OUTSIDE` mode. -/
inductive ClipModeM : Type where
  | disabled
  | clipOutside
  | highlightInside
deriving DecidableEq

/-- The material fields the scheduler reads: the configured clip-box count,
the clip mode, and the clip boxes (each abstracted as its world-space
box, the unit box transformed by the clip box's matrix). -/
structure MaterialM (β : Type) where
  numClipBoxes : ℕ
  clipMode : ClipModeM
  clipBoxes : List β

/-- One point cloud as the scheduler sees it: configuration, the root
node, the per-frame frustum and camera-local position (derived by the
source from `camera.projectionMatrix`, `camera.matrixWorldInverse` and
the cloud's `matrixWorld`; abstract data here), the world transform on
boxes, and the per-frame scratch fields. -/
structure PointCloudM (β V K : Type) where
  initialized : Bool
  visible : Bool
  root : Option (PCNode β V K)
  maxLevel : Option ℕ
  minNodePixelSize : K
  material : MaterialM β
  frustum : β → Bool
  cameraPosition : V
  applyMatrixWorld : β → β
  numVisiblePoints : ℕ := 0
  visibleNodes : List (PCNode β V K) := []
  visibleGeometry : List (PCNode β V K) := []

/-- `QueueItem`: `(pointCloudIndex, weight, node, parent)`. -/
structure QueueItem (β V K : Type) where
  pointCloudIndex : ℕ
  weight : K
  node : PCNode β V K
  parent : Option (PCNode β V K) := none

/-- Modelled from the spec: the type predicate `isTreeNode` of the
type-predicates module (not included under `src/`) recognises a promoted
renderable tree node; on `null`/`undefined` it is false. -/
def isTreeNode {β V K : Type} : Option (PCNode β V K) → Bool
  | none => false
  | some n => n.data.isTree

/-- Modelled from the spec: the type predicate `isGeometryNode` recognises
a not-yet-promoted geometry node. -/
def isGeometryNode {β V K : Type} (n : PCNode β V K) : Bool :=
  !n.data.isTree

/-- Modelled from the spec: `PointCloudOctree.toTreeNode(node, parent)`
(the point-cloud-octree module is not included under `src/`) promotes a
loaded geometry node into a renderable tree node wrapping the same
geometry. -/
def toTreeNode {β V K : Type} : PCNode β V K → PCNode β V K
  | .mk d cs => .mk { d with isTree := true } cs

/-- Modelled from the spec: a tree node wraps a loaded geometry node;
`node.geometryNode` recovers the wrapped geometry node. -/
def PCNode.geometryNode {β V K : Type} : PCNode β V K → PCNode β V K
  | .mk d cs => .mk { d with isTree := false } cs

/-- Modelled from the spec: the priority queue is a binary heap scored by
`1 / item.weight` (minimal score first), so `pop()` removes and returns an
item of maximal weight; ties are broken arbitrarily, here in favour of the
earliest pushed. -/
def popMax {β V K : Type} [LinearOrder K] :
    List (QueueItem β V K) → Option (QueueItem β V K × List (QueueItem β V K))
  | [] => none
  | x :: rest =>
    match popMax rest with
    | none => some (x, [])
    | some (y, rest') => if x.weight < y.weight then some (y, x :: rest') else some (x, rest)

/-- A cloud value used only for the (unreachable in scheduler-built
frames) out-of-range list access `pointClouds[pointCloudIndex]`. -/
def defaultCloud (β V K : Type) [Inhabited β] [Inhabited V] [LinearOrderedField K] :
    PointCloudM β V K :=
  { initialized := false
    visible := false
    root := none
    maxLevel := none
    minNodePixelSize := 0
    material := ⟨0, ClipModeM.disabled, []⟩
    frustum := fun _ => false
    cameraPosition := default
    applyMatrixWorld := fun b => b }

/-- Replace the cloud at an index by a function of itself (mutation of
`pointClouds[i]` through the live reference), a no-op out of range. -/
def updateCloud {β V K : Type} :
    List (PointCloudM β V K) → ℕ → (PointCloudM β V K → PointCloudM β V K) →
    List (PointCloudM β V K)
  | [], _, _ => []
  | pc :: rest, 0, f => f pc :: rest
  | pc :: rest, i + 1, f => pc :: updateCloud rest i f

/-- The traversal state of one `updateVisibility` frame: the mutable
locals of the source loop, the priority queue, the point-cloud list, the
cache, and a ghost list `promoted` recording each node promoted by
`toTreeNode` (appended exactly where `loadedToGPUThisFrame` is
incremented). -/
structure TravState (β V K : Type) where
  numVisiblePoints : ℕ
  visibleNodes : List (PCNode β V K)
  unloadedGeometry : List (PCNode β V K)
  loadedToGPUThisFrame : ℕ
  exceededMaxLoadsToGPU : Bool
  nodeLoadFailed : Bool
  queue : List (QueueItem β V K)
  pointClouds : List (PointCloudM β V K)
  lru : LRU β V K
  promoted : List (PCNode β V K)

namespace Potree

variable {β V K : Type} [Inhabited β] [Inhabited V] [LinearOrderedField K]

/-- `shouldClip(pointCloud, boundingBox)`: clipping applies only with at
least one clip box in `CLIP_OUTSIDE` mode; the node is clipped exactly
when its world-space box intersects none of the clip boxes. -/
def shouldClip (env : Env β V K) (pointCloud : PointCloudM β V K) (boundingBox : β) : Bool :=
  let material := pointCloud.material
  if material.numClipBoxes = 0 || decide (material.clipMode ≠ ClipModeM.clipOutside) then false
  else
    let box2 := pointCloud.applyMatrixWorld boundingBox
    if material.clipBoxes.any (fun clipBoxWorld => env.intersectsBox box2 clipBoxWorld) then false
    else true

/-- `updateChildVisibility`: for each present child compute the distance
from the camera-local position to the child's bounding-sphere centre and
the projection factor (perspective: `halfHeight / (tan(fovRadians/2) *
distance)` after converting `fov` from degrees; orthographic:
`2*halfHeight / (top - bottom)`); skip children whose projected pixel
radius is below `minNodePixelSize`, otherwise push the child with weight
`Number.MAX_VALUE` when the camera is inside the bounding sphere
(`distance < radius`), else `screenPixelRadius + 1/distance`. -/
def updateChildVisibility (env : Env β V K) (camera : CameraM K) (halfHeight : K)
    (queueItem : QueueItem β V K) (priorityQueue : List (QueueItem β V K))
    (pointCloud : PointCloudM β V K) (node : PCNode β V K) (cameraPosition : V) :
    List (QueueItem β V K) :=
  node.children.foldl
    (fun pq child =>
      match child with
      | none => pq
      | some child =>
        let distance := env.distTo child.data.sphereCenter cameraPosition
        let radius := child.data.sphereRadius
        let projectionFactor :=
          if camera.kind = CameraKind.perspective then
            let fov := camera.fov * env.pi / 180
            let slope := env.tan (fov / 2)
            halfHeight / (slope * distance)
          else
            (2 * halfHeight) / (camera.top - camera.bottom)
        let screenPixelRadius := radius * projectionFactor
        if screenPixelRadius < pointCloud.minNodePixelSize then pq
        else
          let weight := if distance < radius then env.maxValue else screenPixelRadius + 1 / distance
          pq ++ [⟨queueItem.pointCloudIndex, weight, child, some node⟩])
    priorityQueue

/-- `updateTreeNodeVisibility`: touch the wrapped geometry node in the
cache and record the node in the global and per-cloud visible lists.  The
scene-node visibility, material and matrix updates and the bounding-box
visualisation concern the rendering collaborator and are outside the
modelled state. -/
def updateTreeNodeVisibility (lru : LRU β V K) (pointCloud : PointCloudM β V K)
    (node : PCNode β V K) (visibleNodes : List (PCNode β V K)) :
    LRU β V K × PointCloudM β V K × List (PCNode β V K) :=
  let lru1 := lru.touch node.geometryNode
  let visibleNodes1 := visibleNodes ++ [node]
  let pointCloud1 := { pointCloud with visibleNodes := pointCloud.visibleNodes ++ [node] }
  (lru1, pointCloud1, visibleNodes1)

/-- The tail of the loop body after the geometry-node branch (source lines
196-218): the tree-node branch (`updateTreeNodeVisibility` and the
`visibleGeometry` push of the wrapped geometry node) followed by child
expansion, applied to the possibly promoted `node`. -/
def visitNode (env : Env β V K) (camera : CameraM K) (halfHeight : K)
    (cameraPositions : List V) (st : TravState β V K)
    (queueItem : QueueItem β V K) (node : PCNode β V K) : TravState β V K :=
  let pointCloudIndex := queueItem.pointCloudIndex
  let st1 :=
    if isTreeNode (some node) then
      let pointCloud := st.pointClouds.getD pointCloudIndex (defaultCloud β V K)
      let res := updateTreeNodeVisibility st.lru pointCloud node st.visibleNodes
      { st with
        lru := res.1
        visibleNodes := res.2.2
        pointClouds := updateCloud st.pointClouds pointCloudIndex
          (fun _ => { res.2.1 with visibleGeometry := res.2.1.visibleGeometry ++ [node.geometryNode] }) }
    else st
  let pointCloud1 := st1.pointClouds.getD pointCloudIndex (defaultCloud β V K)
  { st1 with
    queue := updateChildVisibility env camera halfHeight queueItem st1.queue pointCloud1 node
      (cameraPositions.getD pointCloudIndex default) }

/-- The level test of the traversal loop: the popped node is too deep when
`node.level > pointCloud.maxLevel`; an absent `maxLevel` is `Infinity`,
which no level exceeds. -/
def levelTooDeep (pointCloud : PointCloudM β V K) (node : PCNode β V K) : Bool :=
  match pointCloud.maxLevel with
  | some maxLevel => decide (node.level > maxLevel)
  | none => false

/-- One iteration of the main traversal loop (source lines 151-219) on a
popped `queueItem`, with `rest` the remaining queue.  Returns the new
state and whether the `break` on the global point budget fired. -/
def processItem (env : Env β V K) (camera : CameraM K) (halfHeight : K)
    (maxLoadsToGPU : ℕ) (pointBudget : ℤ)
    (frustums : List (β → Bool)) (cameraPositions : List V)
    (st : TravState β V K) (queueItem : QueueItem β V K)
    (rest : List (QueueItem β V K)) : TravState β V K × Bool :=
  let node := queueItem.node
  if ((st.numVisiblePoints + node.numPoints : ℕ) : ℤ) > pointBudget then
    ({ st with queue := rest }, true)
  else
    let pointCloudIndex := queueItem.pointCloudIndex
    let pointCloud := st.pointClouds.getD pointCloudIndex (defaultCloud β V K)
    if levelTooDeep pointCloud node
        || !((frustums.getD pointCloudIndex (fun _ => false)) node.boundingBox)
        || shouldClip env pointCloud node.boundingBox then
      ({ st with queue := rest }, false)
    else
      let st1 := { st with
        numVisiblePoints := st.numVisiblePoints + node.numPoints
        pointClouds := updateCloud st.pointClouds pointCloudIndex
          (fun pc => { pc with numVisiblePoints := pc.numVisiblePoints + node.numPoints })
        queue := rest }
      let parentNode := queueItem.parent
      if isGeometryNode node && (parentNode.isNone || isTreeNode parentNode) then
        if node.loaded && decide (st1.loadedToGPUThisFrame < maxLoadsToGPU) then
          let node2 := toTreeNode node
          let st2 := { st1 with
            loadedToGPUThisFrame := st1.loadedToGPUThisFrame + 1
            promoted := st1.promoted ++ [node2] }
          (visitNode env camera halfHeight cameraPositions st2 queueItem node2, false)
        else if !node.failed then
          let st2 :=
            if node.loaded && decide (maxLoadsToGPU ≤ st1.loadedToGPUThisFrame) then
              { st1 with exceededMaxLoadsToGPU := true }
            else st1
          let st3 := { st2 with
            unloadedGeometry := st2.unloadedGeometry ++ [node]
            pointClouds := updateCloud st2.pointClouds pointCloudIndex
              (fun pc => { pc with visibleGeometry := pc.visibleGeometry ++ [node] }) }
          (visitNode env camera halfHeight cameraPositions st3 queueItem node, false)
        else
          ({ st1 with nodeLoadFailed := true }, false)
      else
        (visitNode env camera halfHeight cameraPositions st1 queueItem node, false)

/-- The `while ((queueItem = priorityQueue.pop()) !== undefined)` loop,
with explicit fuel; every iteration strictly shrinks the total subtree
size held in the queue, so `queueMeasure + 1` fuel never runs out. -/
def travLoop (env : Env β V K) (camera : CameraM K) (halfHeight : K)
    (maxLoadsToGPU : ℕ) (pointBudget : ℤ)
    (frustums : List (β → Bool)) (cameraPositions : List V) :
    ℕ → TravState β V K → TravState β V K
  | 0, st => st
  | fuel + 1, st =>
    match popMax st.queue with
    | none => st
    | some (queueItem, rest) =>
      let step := processItem env camera halfHeight maxLoadsToGPU pointBudget
        frustums cameraPositions st queueItem rest
      if step.2 then step.1
      else travLoop env camera halfHeight maxLoadsToGPU pointBudget
        frustums cameraPositions fuel step.1

def queueMeasure {β V K : Type} (q : List (QueueItem β V K)) : ℕ :=
  (q.map (fun it => it.node.size)).sum

/-- `updateVisibilityStructures` for the clouds from index `i` on:
uninitialised clouds are skipped (no frustum, no camera position, no seed,
scratch untouched); an initialised cloud gets its scratch reset, its
frustum and camera-local position pushed, and, when visible and rooted, a
root queue item of weight `Number.MAX_VALUE` with its original index.
Hiding previously-visible scene nodes and bounding-box helpers only
touches rendering-collaborator state. -/
def structuresGo (env : Env β V K) :
    ℕ → List (PointCloudM β V K) →
    List (β → Bool) × List V × List (QueueItem β V K) × List (PointCloudM β V K)
  | _, [] => ([], [], [], [])
  | i, pointCloud :: restClouds =>
    let acc := structuresGo env (i + 1) restClouds
    if pointCloud.initialized then
      let pc1 := { pointCloud with
        numVisiblePoints := 0
        visibleNodes := []
        visibleGeometry := [] }
      let queue1 :=
        match pc1.visible, pc1.root with
        | true, some root => (⟨i, env.maxValue, root, none⟩ : QueueItem β V K) :: acc.2.2.1
        | _, _ => acc.2.2.1
      (pc1.frustum :: acc.1, pc1.cameraPosition :: acc.2.1, queue1, pc1 :: acc.2.2.2)
    else
      (acc.1, acc.2.1, acc.2.2.1, pointCloud :: acc.2.2.2)

def updateVisibilityStructures (env : Env β V K) (pointClouds : List (PointCloudM β V K)) :
    List (β → Bool) × List V × List (QueueItem β V K) × List (PointCloudM β V K) :=
  structuresGo env 0 pointClouds

/-- The per-frame result of `updateVisibility`; `nodeLoadStarted` is the
list of unloaded geometry nodes whose `load()` was called this frame (the
promises of `nodeLoadPromises`, which resolve out-of-band). -/
structure VisibilityUpdateResult (β V K : Type) where
  visibleNodes : List (PCNode β V K)
  numVisiblePoints : ℕ
  exceededMaxLoadsToGPU : Bool
  nodeLoadFailed : Bool
  nodeLoadStarted : List (PCNode β V K)

/-- The scheduler object: the private `_pointBudget`, the load
concurrency cap `maxNumNodesLoading`, and the cache `lru`. -/
structure PotreeM (β V K : Type) where
  pointBudget : ℤ
  maxNumNodesLoading : ℕ
  lru : LRU β V K

/-- `updateVisibility(pointClouds, camera, renderer)`: build the per-cloud
structures and the seeded queue, run the traversal loop, then start loads
for the first `min(maxNumNodesLoading, unloadedGeometry.length)` collected
unloaded nodes.  `halfHeight` is `0.5 * renderer.height * pixelRatio`,
constant over the frame.  Returns the frame result together with the final
traversal state (whose `pointClouds` and `lru` the caller's objects now
hold). -/
def updateVisibility (env : Env β V K) (camera : CameraM K) (halfHeight : K)
    (maxLoadsToGPU : ℕ) (potree : PotreeM β V K)
    (pointClouds : List (PointCloudM β V K)) :
    VisibilityUpdateResult β V K × TravState β V K :=
  let structures := updateVisibilityStructures env pointClouds
  let frustums := structures.1
  let cameraPositions := structures.2.1
  let priorityQueue := structures.2.2.1
  let st0 : TravState β V K :=
    { numVisiblePoints := 0
      visibleNodes := []
      unloadedGeometry := []
      loadedToGPUThisFrame := 0
      exceededMaxLoadsToGPU := false
      nodeLoadFailed := false
      queue := priorityQueue
      pointClouds := structures.2.2.2
      lru := potree.lru
      promoted := [] }
  let stf := travLoop env camera halfHeight maxLoadsToGPU potree.pointBudget
    frustums cameraPositions (queueMeasure priorityQueue + 1) st0
  let numNodesToLoad := min potree.maxNumNodesLoading stf.unloadedGeometry.length
  ({ visibleNodes := stf.visibleNodes
     numVisiblePoints := stf.numVisiblePoints
     exceededMaxLoadsToGPU := stf.exceededMaxLoadsToGPU
     nodeLoadFailed := stf.nodeLoadFailed
     nodeLoadStarted := stf.unloadedGeometry.take numNodesToLoad }, stf)

/-- The `pointBudget` setter: when the value changes, update the private
field and the cache's budget and re-run `freeMemory()`. -/
def setPointBudget (potree : PotreeM β V K) (value : ℤ) : PotreeM β V K :=
  if value ≠ potree.pointBudget then
    let lru1 : LRU β V K := { potree.lru with pointBudget := value }
    { potree with
      pointBudget := value
      lru := lru1.freeMemory }
  else potree

end Potree

/-! ### Abstraction of the cache's doubly linked list

`LRU.rep lru l` states that the cache's pointer structure is exactly the
doubly linked list whose member nodes, in order from least recent
(`first`) to most recent (`last`), are the list `l`. -/

/-- The id of the head of `l`, or `q` when `l` is empty (the id the `next`
pointer of the element preceding `l` must hold). -/
def headOr {β V K : Type} (l : List (PCNode β V K)) (q : Option ℕ) : Option ℕ :=
  match l with
  | [] => q
  | n :: _ => some n.id

/-- The id of the last element of `l`, or `p` when `l` is empty (the id
the `previous` pointer of the element following `l` must hold). -/
def lastOr {β V K : Type} (p : Option ℕ) (l : List (PCNode β V K)) : Option ℕ :=
  match l.getLast? with
  | none => p
  | some n => some n.id

/-- The store `items` holds, for the consecutive nodes of the segment `l`,
exactly the cells of a doubly linked list whose predecessor is `p` and
whose successor is `q`. -/
def chainSeg {β V K : Type} (items : List (ℕ × LRUItem β V K)) :
    Option ℕ → List (PCNode β V K) → Option ℕ → Prop
  | _, [], _ => True
  | p, n :: rest, q =>
    lookupItem items n.id = some ⟨n, p, headOr rest q⟩ ∧ chainSeg items (some n.id) rest q

/-- The cache represents the recency list `l` (least recent first): node
ids and store keys are without duplicates, the store has exactly one cell
per list element, `first`/`last` point at the ends, the cells link `l` in
order, and `numPoints` is the total of the member nodes' points. -/
def LRU.rep {β V K : Type} (lru : LRU β V K) (l : List (PCNode β V K)) : Prop :=
  (l.map PCNode.id).Nodup ∧
  (lru.items.map Prod.fst).Nodup ∧
  lru.items.length = l.length ∧
  lru.first = headOr l none ∧
  lru.last = lastOr none l ∧
  chainSeg lru.items none l none ∧
  lru.numPoints = (l.map fun n => (n.data.numPoints : ℤ)).sum

/-- Follow `next` pointers from a cell id, with fuel. -/
def chainIds {β V K : Type} (items : List (ℕ × LRUItem β V K)) :
    ℕ → Option ℕ → List ℕ
  | 0, _ => []
  | _, none => []
  | fuel + 1, some k =>
    k :: (match lookupItem items k with
      | none => []
      | some it => chainIds items fuel it.next)

/-- The cache's list order as observable from its pointers: the node ids
reached from `first` by following `next`. -/
def LRU.orderIds {β V K : Type} (lru : LRU β V K) : List ℕ :=
  chainIds lru.items lru.items.length lru.first

/-- The recency order that a `touch` of `n` should produce from order `l`:
any entry of `n`'s id is removed and `n` becomes the most recent. -/
def upsert {β V K : Type} (l : List (PCNode β V K)) (n : PCNode β V K) :
    List (PCNode β V K) :=
  (l.filter fun m => m.id ≠ n.id) ++ [n]

/-- The order of most recent touch per node (most recently touched last)
over a whole call sequence. -/
def touchOrder {β V K : Type} (seq : List (PCNode β V K)) : List (PCNode β V K) :=
  seq.foldl upsert []

/-- Distinct cache members never disagree with the subtree of another
member on the point count carried by an id: whenever a descendant `d` of a
member's node has the id of a member `m'`, both carry the same
`numPoints`.  (Holds of real octrees, where a node object and its
occurrence as a descendant are one object.)  Required for `remove(n)`,
which subtracts the points of its own argument. -/
def subtreeCoherent {β V K : Type} (l : List (PCNode β V K)) : Prop :=
  ∀ m ∈ l, ∀ d ∈ m.descendants, ∀ m' ∈ l, m'.id = d.id →
    m'.data.numPoints = d.data.numPoints

/-! ### The spec's screen-space-size formulas

Stated from the spec's words, to be compared with the pushes
`updateChildVisibility` performs.  `fov` below is the camera's vertical
field of view; the source stores it in degrees, so the radian angle the
spec's `tan(fov/2)` refers to is `camera.fov * π / 180`. -/

/-- The spec's projected pixel radius of a child at `distance` with
bounding-sphere `radius`: perspective
`radius * halfViewportHeight / (tan(fovRadians/2) * distance)`,
orthographic `radius * 2 * halfViewportHeight / (orthoTop - orthoBottom)`. -/
def specProjectedRadius {β V K : Type} [LinearOrderedField K] (env : Env β V K)
    (camera : CameraM K) (halfHeight distance radius : K) : K :=
  if camera.kind = CameraKind.perspective then
    radius * halfHeight / (env.tan (camera.fov * env.pi / 180 / 2) * distance)
  else
    radius * (2 * halfHeight) / (camera.top - camera.bottom)

/-- The spec's push weight: `Number.MAX_VALUE` when the camera lies inside
the child's bounding sphere (`distance < radius`), else the projected
pixel radius plus `1/distance`. -/
def specWeight {β V K : Type} [LinearOrderedField K] (env : Env β V K)
    (camera : CameraM K) (halfHeight distance radius : K) : K :=
  if distance < radius then env.maxValue
  else specProjectedRadius env camera halfHeight distance radius + 1 / distance

/-- The queue item the spec prescribes for one child slot: nothing for an
absent slot or a child whose projected pixel radius falls below the
cloud's `minNodePixelSize`, else the child at the cloud's index with the
spec's weight and the expanded node as parent. -/
def specChildItem {β V K : Type} [LinearOrderedField K] (env : Env β V K)
    (camera : CameraM K) (halfHeight : K) (pointCloud : PointCloudM β V K)
    (pointCloudIndex : ℕ) (cameraPosition : V) (node : PCNode β V K) :
    Option (PCNode β V K) → Option (QueueItem β V K)
  | none => none
  | some child =>
    let distance := env.distTo child.data.sphereCenter cameraPosition
    let radius := child.data.sphereRadius
    if specProjectedRadius env camera halfHeight distance radius < pointCloud.minNodePixelSize
    then none
    else some ⟨pointCloudIndex, specWeight env camera halfHeight distance radius,
      child, some node⟩

/-! ### Abstractions for the traversal invariants

`cloudEvolve` bounds how one accepted node may change the cloud list;
`cloudsSafe` is the per-cloud frustum invariant the traversal maintains. -/

/-- How one accepted node may change the cloud list: only the cloud at the
node's index gains entries in its visible lists, every entry gained
carries the accepted node's bounding box `b`, and no cloud's frustum
changes. -/
def cloudEvolve {β V K : Type} (idx : ℕ) (b : β) (cs cs' : List (PointCloudM β V K)) : Prop :=
  ∀ (j : ℕ) (pc' : PointCloudM β V K), cs'[j]? = some pc' →
    ∃ pc, cs[j]? = some pc ∧ pc'.frustum = pc.frustum ∧
      (∀ m ∈ pc'.visibleNodes, m ∈ pc.visibleNodes ∨ (j = idx ∧ m.boundingBox = b)) ∧
      (∀ m ∈ pc'.visibleGeometry, m ∈ pc.visibleGeometry ∨ (j = idx ∧ m.boundingBox = b))

/-- The per-cloud frustum invariant: the frustum list is aligned with the
cloud list, and every node a cloud records visible has a bounding box its
own frustum accepted. -/
def cloudsSafe {β V K : Type} (frustums : List (β → Bool))
    (cs : List (PointCloudM β V K)) : Prop :=
  ∀ (j : ℕ) (pc : PointCloudM β V K), cs[j]? = some pc →
    frustums[j]? = some pc.frustum ∧
    (∀ m ∈ pc.visibleNodes, pc.frustum m.boundingBox = true) ∧
    (∀ m ∈ pc.visibleGeometry, pc.frustum m.boundingBox = true)

/-! ### Concrete frames and caches used in scenario theorems and witnesses -/

open Potree

/-- A leaf geometry node over trivial geometry: id, point count, level,
load state, bounding-sphere radius. -/
def leafNode (i pts lvl : ℕ) (ld fl : Bool) (radius : ℚ) : PCNode Unit Unit ℚ :=
  .mk ⟨i, pts, lvl, ld, fl, false, (), (), radius⟩ []

/-- An environment over trivial geometry: every box intersects everything,
all distances are `10`. -/
def envC1 : Env Unit Unit ℚ :=
  { distTo := fun _ _ => 10
    tan := fun x => x
    pi := 3
    maxValue := 1000000000
    intersectsBox := fun _ _ => true }

/-- An orthographic camera with `top - bottom = 2`. -/
def camC1 : CameraM ℚ := { kind := .orthographic, fov := 60, top := 1, bottom := -1 }

/-- Scenario node B: 50 points, high on-screen priority. -/
def nodeB : PCNode Unit Unit ℚ := leafNode 2 50 1 true false 5

/-- Scenario node C: 10 points, low on-screen priority. -/
def nodeC : PCNode Unit Unit ℚ := leafNode 3 10 1 true false 2

/-- Scenario node A: the root, 60 points, children B and C. -/
def nodeA : PCNode Unit Unit ℚ :=
  .mk ⟨1, 60, 0, true, false, false, (), (), 8⟩ [some nodeB, some nodeC]

/-- The scenario's point cloud: initialised, visible, rooted at A, no
level cap, no clipping, an all-accepting frustum. -/
def cloudC1 : PointCloudM Unit Unit ℚ :=
  { initialized := true
    visible := true
    root := some nodeA
    maxLevel := none
    minNodePixelSize := 0
    material := ⟨0, ClipModeM.disabled, []⟩
    frustum := fun _ => true
    cameraPosition := ()
    applyMatrixWorld := fun b => b }

/-- The scenario's scheduler: global point budget 100, empty cache. -/
def potreeC1 : PotreeM Unit Unit ℚ :=
  { pointBudget := 100, maxNumNodesLoading := 4, lru := {} }

/-- A root marked `failed := true` with an unexpanded child, for the
failed-node scenarios. -/
def nodeF : PCNode Unit Unit ℚ :=
  .mk ⟨7, 5, 0, false, true, false, (), (), 8⟩ [some nodeB]

/-- The failed-node scenario's point cloud. -/
def cloudF : PointCloudM Unit Unit ℚ := { cloudC1 with root := some nodeF }

/-- A traversal state holding a queue of the failed root (priority) and
the loaded leaf C. -/
def stF : TravState Unit Unit ℚ :=
  { numVisiblePoints := 0
    visibleNodes := []
    unloadedGeometry := []
    loadedToGPUThisFrame := 0
    exceededMaxLoadsToGPU := false
    nodeLoadFailed := false
    queue := [⟨0, 100, nodeF, none⟩, ⟨0, 3, nodeC, none⟩]
    pointClouds := [cloudF]
    lru := {}
    promoted := [] }

/-- The queue item popping the failed root. -/
def qiF : QueueItem Unit Unit ℚ := ⟨0, 100, nodeF, none⟩

/-- The remaining queue after popping the failed root. -/
def restF : List (QueueItem Unit Unit ℚ) := [⟨0, 3, nodeC, none⟩]

/-- A traversal state whose queue holds only the failed root. -/
def stF6 : TravState Unit Unit ℚ :=
  { stF with queue := [qiF] }

/-- A two-item cache over budget: nodes 21 and 22, 20 points each,
`pointBudget = 5`. -/
def lruTwo : LRU Unit Unit ℚ :=
  { first := some 21
    last := some 22
    numPoints := 40
    items := [(21, ⟨leafNode 21 20 1 true false 0, none, some 22⟩),
              (22, ⟨leafNode 22 20 1 true false 0, some 21, none⟩)]
    pointBudget := 5 }

/-- A loaded leaf with id 41, used in the touch-sequence witness. -/
def nodeT1 : PCNode Unit Unit ℚ := leafNode 41 7 1 true false 0

/-- A loaded leaf with id 42, used in the touch-sequence witness. -/
def nodeT2 : PCNode Unit Unit ℚ := leafNode 42 9 1 true false 0

/-- A scheduler whose cache is the over-budget two-item cache. -/
def potreeW : PotreeM Unit Unit ℚ :=
  { pointBudget := 50, maxNumNodesLoading := 4, lru := lruTwo }

/-- The nodes of `lruTwo`, least recent first. -/
def lruTwoList : List (PCNode Unit Unit ℚ) :=
  [leafNode 21 20 1 true false 0, leafNode 22 20 1 true false 0]

/-! ### Lemmas on the id-to-item store -/

section StoreLemmas

variable {β V K : Type}

theorem lookupItem_setItem_self (items : List (ℕ × LRUItem β V K)) (k : ℕ)
    (v : LRUItem β V K) : lookupItem (setItem items k v) k = some v := by
  induction items with
  | nil => simp [setItem, lookupItem]
  | cons e rest ih =>
    by_cases h : e.1 = k
    · simp [setItem, lookupItem, h]
    · simp [setItem, lookupItem, h, ih]

theorem lookupItem_setItem_ne (items : List (ℕ × LRUItem β V K)) {k k' : ℕ}
    (v : LRUItem β V K) (h : k' ≠ k) :
    lookupItem (setItem items k v) k' = lookupItem items k' := by
  have hkk : ¬ k = k' := fun hh => h hh.symm
  induction items with
  | nil => simp [setItem, lookupItem, hkk]
  | cons e rest ih =>
    by_cases he : e.1 = k
    · subst he
      simp [setItem, lookupItem, hkk]
    · simp [setItem, lookupItem, he, ih]

theorem lookupItem_modifyItem_self (items : List (ℕ × LRUItem β V K)) (k : ℕ)
    (f : LRUItem β V K → LRUItem β V K) :
    lookupItem (modifyItem items k f) k = (lookupItem items k).map f := by
  induction items with
  | nil => simp [modifyItem, lookupItem]
  | cons e rest ih =>
    by_cases h : e.1 = k
    · simp [modifyItem, lookupItem, h]
    · simp [modifyItem, lookupItem, h, ih]

theorem lookupItem_modifyItem_ne (items : List (ℕ × LRUItem β V K)) {k k' : ℕ}
    (f : LRUItem β V K → LRUItem β V K) (h : k' ≠ k) :
    lookupItem (modifyItem items k f) k' = lookupItem items k' := by
  have hkk : ¬ k = k' := fun hh => h hh.symm
  induction items with
  | nil => simp [modifyItem, lookupItem]
  | cons e rest ih =>
    by_cases he : e.1 = k
    · subst he
      simp [modifyItem, lookupItem, hkk]
    · simp [modifyItem, lookupItem, he, ih]

theorem lookupItem_eraseItem_ne (items : List (ℕ × LRUItem β V K)) {k k' : ℕ}
    (h : k' ≠ k) : lookupItem (eraseItem items k) k' = lookupItem items k' := by
  have hkk : ¬ k = k' := fun hh => h hh.symm
  induction items with
  | nil => simp [eraseItem, lookupItem]
  | cons e rest ih =>
    by_cases he : e.1 = k
    · subst he
      simp [eraseItem, lookupItem, hkk]
    · simp [eraseItem, lookupItem, he, ih]

theorem lookupItem_eraseItem_self (items : List (ℕ × LRUItem β V K)) (k : ℕ)
    (hnd : (items.map Prod.fst).Nodup) :
    lookupItem (eraseItem items k) k = none := by
  induction items with
  | nil => simp [eraseItem, lookupItem]
  | cons e rest ih =>
    simp only [List.map_cons, List.nodup_cons] at hnd
    by_cases he : e.1 = k
    · subst he
      simp only [eraseItem, if_pos rfl]
      cases hres : lookupItem rest e.1 with
      | none => exact hres
      | some v =>
        exfalso
        apply hnd.1
        clear ih hnd
        induction rest with
        | nil => simp [lookupItem] at hres
        | cons e' rest' ih' =>
          by_cases he' : e'.1 = e.1
          · simp [he']
          · simp only [lookupItem, if_neg he'] at hres
            simp [ih' hres]
    · simp [eraseItem, lookupItem, he, ih hnd.2]

theorem keys_modifyItem (items : List (ℕ × LRUItem β V K)) (k : ℕ)
    (f : LRUItem β V K → LRUItem β V K) :
    (modifyItem items k f).map Prod.fst = items.map Prod.fst := by
  induction items with
  | nil => simp [modifyItem]
  | cons e rest ih =>
    by_cases h : e.1 = k
    · simp [modifyItem, h]
    · simp [modifyItem, h, ih]

theorem length_modifyItem (items : List (ℕ × LRUItem β V K)) (k : ℕ)
    (f : LRUItem β V K → LRUItem β V K) :
    (modifyItem items k f).length = items.length := by
  have := congrArg List.length (keys_modifyItem items k f)
  simpa using this

theorem keys_setItem_absent (items : List (ℕ × LRUItem β V K)) (k : ℕ)
    (v : LRUItem β V K) (h : lookupItem items k = none) :
    (setItem items k v).map Prod.fst = items.map Prod.fst ++ [k] := by
  induction items with
  | nil => simp [setItem]
  | cons e rest ih =>
    by_cases he : e.1 = k
    · simp [lookupItem, he] at h
    · simp only [lookupItem, if_neg he] at h
      simp [setItem, he, ih h]

theorem keys_eraseItem_sublist (items : List (ℕ × LRUItem β V K)) (k : ℕ) :
    ((eraseItem items k).map Prod.fst).Sublist (items.map Prod.fst) := by
  induction items with
  | nil => simp [eraseItem]
  | cons e rest ih =>
    by_cases he : e.1 = k
    · simp only [eraseItem, if_pos he, List.map_cons]
      exact (List.sublist_cons_self _ _)
    · simp only [eraseItem, if_neg he, List.map_cons]
      exact ih.cons₂ e.1

theorem length_eraseItem_present (items : List (ℕ × LRUItem β V K)) (k : ℕ)
    {v : LRUItem β V K} (h : lookupItem items k = some v) :
    (eraseItem items k).length + 1 = items.length := by
  induction items with
  | nil => simp [lookupItem] at h
  | cons e rest ih =>
    by_cases he : e.1 = k
    · simp [eraseItem, he]
    · simp only [lookupItem, if_neg he] at h
      simp [eraseItem, he, ih h]

theorem lookup_isSome_of_mem_keys (items : List (ℕ × LRUItem β V K)) {k : ℕ}
    (h : k ∈ items.map Prod.fst) : (lookupItem items k).isSome := by
  induction items with
  | nil => simp at h
  | cons e rest ih =>
    by_cases he : e.1 = k
    · simp [lookupItem, he]
    · simp only [List.map_cons, List.mem_cons] at h
      rcases h with h | h
      · exact absurd h.symm he
      · simp [lookupItem, he, ih h]

theorem mem_keys_of_lookup_isSome (items : List (ℕ × LRUItem β V K)) {k : ℕ}
    (h : (lookupItem items k).isSome) : k ∈ items.map Prod.fst := by
  induction items with
  | nil => simp [lookupItem] at h
  | cons e rest ih =>
    by_cases he : e.1 = k
    · simp [he]
    · simp only [lookupItem, if_neg he] at h
      simp [ih h]

end StoreLemmas

/-! ### Lemmas on the chain representation -/

section ChainLemmas

variable {β V K : Type}

theorem headOr_append (l₁ l₂ : List (PCNode β V K)) (q : Option ℕ) :
    headOr (l₁ ++ l₂) q = headOr l₁ (headOr l₂ q) := by
  cases l₁ <;> simp [headOr]

theorem lastOr_nil (p : Option ℕ) : lastOr p ([] : List (PCNode β V K)) = p := rfl

theorem lastOr_cons (p : Option ℕ) (n : PCNode β V K) (t : List (PCNode β V K)) :
    lastOr p (n :: t) = lastOr (some n.id) t := by
  induction t generalizing p n with
  | nil => rfl
  | cons m t' ih =>
    have h1 : lastOr p (n :: m :: t') = lastOr p (m :: t') := by
      simp [lastOr, List.getLast?_cons_cons]
    rw [h1, ih p m, ih (some n.id) m]

theorem lastOr_append (p : Option ℕ) (l₁ l₂ : List (PCNode β V K)) :
    lastOr p (l₁ ++ l₂) = lastOr (lastOr p l₁) l₂ := by
  induction l₁ generalizing p with
  | nil => simp [lastOr_nil]
  | cons n t ih => rw [List.cons_append, lastOr_cons, lastOr_cons, ih]

theorem chainSeg_congr {items items' : List (ℕ × LRUItem β V K)}
    {p q : Option ℕ} {l : List (PCNode β V K)}
    (h : ∀ n ∈ l, lookupItem items' n.id = lookupItem items n.id)
    (hc : chainSeg items p l q) : chainSeg items' p l q := by
  induction l generalizing p with
  | nil => trivial
  | cons n t ih =>
    refine ⟨?_, ih (fun m hm => h m (List.mem_cons_of_mem _ hm)) hc.2⟩
    rw [h n (List.mem_cons_self _ _)]
    exact hc.1

theorem chainSeg_append_iff {items : List (ℕ × LRUItem β V K)}
    {p q : Option ℕ} {l₁ l₂ : List (PCNode β V K)} :
    chainSeg items p (l₁ ++ l₂) q ↔
      chainSeg items p l₁ (headOr l₂ q) ∧ chainSeg items (lastOr p l₁) l₂ q := by
  induction l₁ generalizing p with
  | nil => simp [chainSeg, lastOr]
  | cons n t ih =>
    simp only [List.cons_append, chainSeg, List.append_eq, headOr_append, lastOr_cons, ih]
    constructor
    · rintro ⟨h1, h2, h3⟩
      exact ⟨⟨h1, h2⟩, h3⟩
    · rintro ⟨⟨h1, h2⟩, h3⟩
      exact ⟨h1, h2, h3⟩

theorem chainSeg_lookup_node {items : List (ℕ × LRUItem β V K)}
    {p q : Option ℕ} {l : List (PCNode β V K)} {n : PCNode β V K}
    (hc : chainSeg items p l q) (hn : n ∈ l) :
    ∃ it, lookupItem items n.id = some it ∧ it.node = n := by
  induction l generalizing p with
  | nil => simp at hn
  | cons m t ih =>
    rcases List.mem_cons.mp hn with h | h
    · subst h
      exact ⟨_, hc.1, rfl⟩
    · exact ih hc.2 h

end ChainLemmas

section RepLemmas

variable {β V K : Type}

theorem headOr_irrel {l : List (PCNode β V K)} (h : l ≠ []) (q q' : Option ℕ) :
    headOr l q = headOr l q' := by
  cases l with
  | nil => exact absurd rfl h
  | cons n t => rfl

theorem lastOr_irrel {l : List (PCNode β V K)} (h : l ≠ []) (p p' : Option ℕ) :
    lastOr p l = lastOr p' l := by
  cases l with
  | nil => exact absurd rfl h
  | cons n t => rw [lastOr_cons, lastOr_cons]

theorem rep_keys_perm {lru : LRU β V K} {l : List (PCNode β V K)} (h : lru.rep l) :
    (lru.items.map Prod.fst).Perm (l.map PCNode.id) := by
  obtain ⟨hnd, hknd, hlen, -, -, hchain, -⟩ := h
  have hsub : (l.map PCNode.id) ⊆ lru.items.map Prod.fst := by
    intro k hk
    obtain ⟨n, hn, rfl⟩ := List.mem_map.mp hk
    obtain ⟨it, hit, -⟩ := chainSeg_lookup_node hchain hn
    exact mem_keys_of_lookup_isSome _ (by simp [hit])
  have hsp := hnd.subperm hsub
  have hlen2 : (lru.items.map Prod.fst).length ≤ (l.map PCNode.id).length := by
    simp [hlen]
  exact (hsp.perm_of_length_le hlen2).symm

theorem rep_lookup_none {lru : LRU β V K} {l : List (PCNode β V K)} (h : lru.rep l)
    {k : ℕ} (hk : k ∉ l.map PCNode.id) : lookupItem lru.items k = none := by
  cases hres : lookupItem lru.items k with
  | none => rfl
  | some it =>
    exact absurd ((rep_keys_perm h).mem_iff.mp
      (mem_keys_of_lookup_isSome _ (by simp [hres]))) hk

theorem rep_mem_ids_of_lookup {lru : LRU β V K} {l : List (PCNode β V K)} (h : lru.rep l)
    {k : ℕ} {it : LRUItem β V K} (hres : lookupItem lru.items k = some it) :
    k ∈ l.map PCNode.id :=
  (rep_keys_perm h).mem_iff.mp (mem_keys_of_lookup_isSome _ (by simp [hres]))

theorem chainSeg_retarget_last {items : List (ℕ × LRUItem β V K)} {p q x : Option ℕ}
    {l : List (PCNode β V K)} {z : PCNode β V K}
    (hnd : ((l ++ [z]).map PCNode.id).Nodup)
    (hc : chainSeg items p (l ++ [z]) q) :
    chainSeg (modifyItem items z.id (fun it => { it with next := x })) p (l ++ [z]) x := by
  have hzl : ∀ m ∈ l, m.id ≠ z.id := by
    intro m hm heq
    rw [List.map_append, List.nodup_append] at hnd
    exact hnd.2.2 (List.mem_map_of_mem _ hm) (by simp [heq])
  rw [chainSeg_append_iff] at hc ⊢
  constructor
  · exact chainSeg_congr
      (fun m hm => lookupItem_modifyItem_ne _ _ (hzl m hm)) hc.1
  · refine ⟨?_, trivial⟩
    rw [lookupItem_modifyItem_self, hc.2.1]
    rfl

theorem chainSeg_retarget_head {items : List (ℕ × LRUItem β V K)} {p p' q : Option ℕ}
    {m : PCNode β V K} {t : List (PCNode β V K)}
    (hnd : ((m :: t).map PCNode.id).Nodup)
    (hc : chainSeg items p (m :: t) q) :
    chainSeg (modifyItem items m.id (fun it => { it with previous := p' })) p' (m :: t) q := by
  have hmt : ∀ n ∈ t, n.id ≠ m.id := by
    intro n hn heq
    simp only [List.map_cons, List.nodup_cons] at hnd
    exact hnd.1 (heq ▸ List.mem_map_of_mem _ hn)
  refine ⟨?_, ?_⟩
  · rw [lookupItem_modifyItem_self, hc.1]
    rfl
  · exact chainSeg_congr (fun n hn => lookupItem_modifyItem_ne _ _ (hmt n hn)) hc.2

end RepLemmas

section TouchLemmas

variable {β V K : Type}

theorem rep_addNew {lru : LRU β V K} {l : List (PCNode β V K)} {n : PCNode β V K}
    (h : lru.rep l) (hid : n.id ∉ l.map PCNode.id) :
    (lru.addNew n).rep (l ++ [n]) := by
  have hlknone : lookupItem lru.items n.id = none := rep_lookup_none h hid
  have hknotin : n.id ∉ lru.items.map Prod.fst := fun hk =>
    hid ((rep_keys_perm h).mem_iff.mp hk)
  obtain ⟨hnd, hknd, hlen, hfirst, hlast, hchain, hnum⟩ := h
  rcases List.eq_nil_or_concat' l with rfl | ⟨l', m, rfl⟩
  · have hitems : lru.items = [] := List.length_eq_zero.mp hlen
    have hf : lru.first = none := by rw [hfirst]; rfl
    have hl : lru.last = none := by rw [hlast]; rfl
    refine ⟨by simp, ?_, ?_, ?_, ?_, ?_, ?_⟩ <;>
      simp [LRU.addNew, hl, hf, hitems, setItem, chainSeg, lookupItem, headOr, lastOr,
        PCNode.numPoints, hnum]
  · have hlne : l' ++ [m] ≠ [] := by simp
    have hlast' : lru.last = some m.id := by
      rw [hlast, lastOr_append]
      rfl
    have hlastval : lastOr none (l' ++ [m]) = some m.id := by
      rw [lastOr_append]
      rfl
    have hnm : n.id ≠ m.id := by
      intro he
      exact hid (by rw [List.map_append]; exact List.mem_append_right _ (by simp [he]))
    obtain ⟨f, hf, hfval⟩ : ∃ f, lru.first = some f ∧ headOr (l' ++ [m]) none = some f := by
      cases l' with
      | nil => exact ⟨m.id, by rw [hfirst]; rfl, rfl⟩
      | cons a t => exact ⟨a.id, by rw [hfirst]; rfl, rfl⟩
    have haddeq : lru.addNew n =
        ({ first := some f
           last := some n.id
           items := setItem
             (modifyItem lru.items m.id (fun it => { it with next := some n.id }))
             n.id ⟨n, some m.id, none⟩
           numPoints := lru.numPoints + n.numPoints
           pointBudget := lru.pointBudget } : LRU β V K) := by
      simp [LRU.addNew, hlast', hf]
    have hlk1 : lookupItem (modifyItem lru.items m.id
        (fun it => { it with next := some n.id })) n.id = none := by
      rw [lookupItem_modifyItem_ne _ _ hnm, hlknone]
    have hkeys' : ((setItem (modifyItem lru.items m.id
        (fun it => { it with next := some n.id })) n.id
        (⟨n, some m.id, none⟩ : LRUItem β V K)).map Prod.fst)
        = lru.items.map Prod.fst ++ [n.id] := by
      rw [keys_setItem_absent _ _ _ hlk1, keys_modifyItem]
    rw [haddeq]
    refine ⟨?_, ?_, ?_, ?_, ?_, ?_, ?_⟩
    · rw [List.map_append]
      refine List.Nodup.append hnd (by simp) ?_
      intro x hx hy
      simp only [List.map_cons, List.map_nil, List.mem_singleton] at hy
      subst hy
      exact hid hx
    · show ((setItem _ _ _).map Prod.fst).Nodup
      rw [hkeys']
      refine List.Nodup.append hknd (by simp) ?_
      intro x hx hy
      simp only [List.mem_singleton] at hy
      subst hy
      exact hknotin hx
    · show (setItem _ _ _).length = _
      have hh := congrArg List.length hkeys'
      simp only [List.length_map, List.length_append, List.length_cons, List.length_nil] at hh
      simp [hh, hlen]
    · show some f = _
      rw [headOr_append, headOr_irrel hlne (headOr [n] none) none, hfval]
    · show some n.id = _
      rw [lastOr_append]
      rfl
    · show chainSeg _ none ((l' ++ [m]) ++ [n]) none
      rw [chainSeg_append_iff]
      constructor
      · refine chainSeg_congr (fun nn hnn => ?_)
          (chainSeg_retarget_last (x := some n.id) hnd hchain)
        refine lookupItem_setItem_ne _ _ (fun he => hid ?_)
        rw [← he]
        exact List.mem_map_of_mem _ hnn
      · refine ⟨?_, trivial⟩
        rw [hlastval]
        exact lookupItem_setItem_self _ _ _
    · show lru.numPoints + (n.numPoints : ℤ) = _
      rw [hnum]
      simp [PCNode.numPoints]
      ring

end TouchLemmas

section TouchExistingLemmas

variable {β V K : Type}

theorem perm_move_to_end (l₁ l₂ : List (PCNode β V K)) (n : PCNode β V K) :
    (l₁ ++ n :: l₂).Perm (l₁ ++ l₂ ++ [n]) := by
  have h1 : (n :: l₂).Perm (l₂ ++ [n]) := by
    have := @List.perm_append_comm _ [n] l₂
    simpa using this
  calc (l₁ ++ n :: l₂).Perm (l₁ ++ (l₂ ++ [n])) := h1.append_left l₁
    _ = l₁ ++ l₂ ++ [n] := (List.append_assoc _ _ _).symm

theorem nodup_middle_facts {l₁ l₂ : List (PCNode β V K)} {n : PCNode β V K}
    (hnd : ((l₁ ++ n :: l₂).map PCNode.id).Nodup) :
    (l₁.map PCNode.id).Nodup ∧ (l₂.map PCNode.id).Nodup ∧
    (∀ x ∈ l₁, x.id ≠ n.id) ∧ (∀ x ∈ l₂, x.id ≠ n.id) ∧
    (∀ x ∈ l₁, ∀ y ∈ l₂, x.id ≠ y.id) := by
  rw [List.map_append, List.map_cons, List.nodup_append] at hnd
  obtain ⟨h1, h2, hdisj⟩ := hnd
  rw [List.nodup_cons] at h2
  refine ⟨h1, h2.2, ?_, ?_, ?_⟩
  · intro x hx heq
    exact hdisj (List.mem_map_of_mem _ hx) (by simp [heq])
  · intro x hx heq
    exact h2.1 (heq ▸ List.mem_map_of_mem _ hx)
  · intro x hx y hy heq
    exact hdisj (List.mem_map_of_mem _ hx)
      (by simp only [List.mem_cons]; right; exact heq ▸ List.mem_map_of_mem _ hy)

theorem lastOr_isSome {l : List (PCNode β V K)} (p : Option ℕ) (h : l ≠ []) :
    ∃ x, lastOr p l = some x := by
  rcases List.eq_nil_or_concat' l with rfl | ⟨l', z, rfl⟩
  · exact absurd rfl h
  · exact ⟨z.id, by rw [lastOr_append]; rfl⟩

end TouchExistingLemmas

section TouchExistingMain

variable {β V K : Type}

theorem rep_touchExisting {lru : LRU β V K} {l₁ l₂ : List (PCNode β V K)}
    {n : PCNode β V K} (h : lru.rep (l₁ ++ n :: l₂)) :
    (lru.touchExisting n.id).rep (l₁ ++ l₂ ++ [n]) := by
  obtain ⟨hnd, hknd, hlen, hfirst, hlast, hchain, hnum⟩ := h
  obtain ⟨hnd1, hnd2, hne1, hne2, hne12⟩ := nodup_middle_facts hnd
  have hdecomp := chainSeg_append_iff.mp hchain
  have hc1 : chainSeg lru.items none l₁ (some n.id) := hdecomp.1
  have hlookupn : lookupItem lru.items n.id =
      some ⟨n, lastOr none l₁, headOr l₂ none⟩ := hdecomp.2.1
  have hc2 : chainSeg lru.items (some n.id) l₂ none := hdecomp.2.2
  rcases l₂ with _ | ⟨m, t₂⟩
  · -- n is already the most recent cell: both relink branches do nothing
    have heq : lru.touchExisting n.id = lru := by
      simp only [LRU.touchExisting, hlookupn]
      rcases lastOr (none : Option ℕ) l₁ with _ | p <;> rfl
    rw [heq, show l₁ ++ [] ++ [n] = l₁ ++ n :: [] by simp]
    exact ⟨hnd, hknd, hlen, hfirst, hlast, hchain, hnum⟩
  · have hnext : headOr (m :: t₂) (none : Option ℕ) = some m.id := rfl
    rw [hnext] at hlookupn
    obtain ⟨t', z, hzdec⟩ : ∃ t' z, m :: t₂ = t' ++ [z] := by
      rcases List.eq_nil_or_concat' (m :: t₂) with hh | ⟨t', z, hh⟩
      · simp at hh
      · exact ⟨t', z, hh⟩
    have holdlast : lru.last = some z.id := by
      rw [hlast, lastOr_append, lastOr_cons, hzdec, lastOr_append]
      rfl
    have hzmem : z ∈ m :: t₂ := by
      rw [hzdec]
      exact List.mem_append_right _ (by simp)
    have hzn : z.id ≠ n.id := hne2 z hzmem
    have hmn : m.id ≠ n.id := hne2 m (by simp)
    have hperm : ((l₁ ++ n :: (m :: t₂)).map PCNode.id).Perm
        ((l₁ ++ (m :: t₂) ++ [n]).map PCNode.id) :=
      (perm_move_to_end l₁ (m :: t₂) n).map _
    have hndtgt : ((l₁ ++ (m :: t₂) ++ [n]).map PCNode.id).Nodup :=
      hperm.nodup_iff.mp hnd
    have hsum : ((l₁ ++ n :: (m :: t₂)).map fun x => (x.data.numPoints : ℤ)).sum =
        ((l₁ ++ (m :: t₂) ++ [n]).map fun x => (x.data.numPoints : ℤ)).sum :=
      ((perm_move_to_end l₁ (m :: t₂) n).map _).sum_eq
    rcases List.eq_nil_or_concat' l₁ with rfl | ⟨s, p, rfl⟩
    · -- n is the head of a longer list
      have hprev : lastOr (none : Option ℕ) ([] : List (PCNode β V K)) = none := rfl
      rw [hprev] at hlookupn
      have heq : lru.touchExisting n.id =
          ({ first := some m.id
             last := some n.id
             items := modifyItem (modifyItem (modifyItem lru.items m.id
                 (fun it => { it with previous := none })) n.id
                 (fun it => { it with previous := some z.id, next := none })) z.id
                 (fun it => { it with next := some n.id })
             numPoints := lru.numPoints
             pointBudget := lru.pointBudget } : LRU β V K) := by
        simp only [LRU.touchExisting, hlookupn, holdlast]
      rw [heq]
      have hkeys : ∀ q : List (ℕ × LRUItem β V K), ∀ a b c : ℕ,
          ∀ f g j : LRUItem β V K → LRUItem β V K,
          ((modifyItem (modifyItem (modifyItem q a f) b g) c j).map Prod.fst)
            = q.map Prod.fst := by
        intro q a b c f g j
        rw [keys_modifyItem, keys_modifyItem, keys_modifyItem]
      have hlen3 : ∀ q : List (ℕ × LRUItem β V K), ∀ a b c : ℕ,
          ∀ f g j : LRUItem β V K → LRUItem β V K,
          (modifyItem (modifyItem (modifyItem q a f) b g) c j).length = q.length := by
        intro q a b c f g j
        rw [length_modifyItem, length_modifyItem, length_modifyItem]
      refine ⟨by simpa using hndtgt, ?_, ?_, ?_, ?_, ?_, ?_⟩
      · rw [hkeys]
        exact hknd
      · rw [hlen3, hlen]
        simp
      · rfl
      · show some n.id = _
        rw [lastOr_append]
        rfl
      · show chainSeg (modifyItem (modifyItem (modifyItem lru.items m.id
            (fun it => { it with previous := none })) n.id
            (fun it => { it with previous := some z.id, next := none })) z.id
            (fun it => { it with next := some n.id })) none
            (([] : List (PCNode β V K)) ++ (m :: t₂) ++ [n]) none
        rw [List.nil_append, chainSeg_append_iff]
        constructor
        · -- the old tail, head retargeted to none, then the new tail pointer of z
          have step1 : chainSeg (modifyItem lru.items m.id
              (fun it => { it with previous := none })) none (m :: t₂) none :=
            chainSeg_retarget_head hnd2 hc2
          have step2 : chainSeg (modifyItem (modifyItem lru.items m.id
              (fun it => { it with previous := none })) n.id
              (fun it => { it with previous := some z.id, next := none }))
              none (m :: t₂) none :=
            chainSeg_congr (fun x hx => lookupItem_modifyItem_ne _ _ (hne2 x hx)) step1
          rw [hzdec] at step2 ⊢
          have hnd2' : ((t' ++ [z]).map PCNode.id).Nodup := by rw [← hzdec]; exact hnd2
          have := chainSeg_retarget_last (x := some n.id) hnd2' step2
          simpa [headOr_append, headOr] using this
        · refine ⟨?_, trivial⟩
          have u1 : lookupItem (modifyItem lru.items m.id
              (fun it => { it with previous := none })) n.id =
              some ⟨n, none, some m.id⟩ := by
            rw [lookupItem_modifyItem_ne _ _ (fun hh => hmn hh.symm), hlookupn]
          have u2 : lookupItem (modifyItem (modifyItem lru.items m.id
              (fun it => { it with previous := none })) n.id
              (fun it => { it with previous := some z.id, next := none })) n.id =
              some ⟨n, some z.id, none⟩ := by
            rw [lookupItem_modifyItem_self, u1]
            rfl
          rw [lookupItem_modifyItem_ne _ _ (Ne.symm hzn), u2, hzdec, lastOr_append]
          rfl
      · show lru.numPoints = _
        rw [hnum]
        simpa using hsum
    · -- n is an interior cell: previous and next both exist
      have hpmem : p ∈ s ++ [p] := List.mem_append_right _ (by simp)
      have hprev : lastOr (none : Option ℕ) (s ++ [p]) = some p.id := by
        rw [lastOr_append]
        rfl
      rw [hprev] at hlookupn
      have hpn : p.id ≠ n.id := hne1 p hpmem
      have hpm : p.id ≠ m.id := hne12 p hpmem m (by simp)
      have hpz : p.id ≠ z.id := hne12 p hpmem z hzmem
      have heq : lru.touchExisting n.id =
          ({ first := lru.first
             last := some n.id
             items := modifyItem (modifyItem (modifyItem (modifyItem lru.items p.id
                 (fun it => { it with next := some m.id })) m.id
                 (fun it => { it with previous := some p.id })) n.id
                 (fun it => { it with previous := some z.id, next := none })) z.id
                 (fun it => { it with next := some n.id })
             numPoints := lru.numPoints
             pointBudget := lru.pointBudget } : LRU β V K) := by
        simp only [LRU.touchExisting, hlookupn, holdlast]
      rw [heq]
      refine ⟨by simpa using hndtgt, ?_, ?_, ?_, ?_, ?_, ?_⟩
      · rw [keys_modifyItem, keys_modifyItem, keys_modifyItem, keys_modifyItem]
        exact hknd
      · rw [length_modifyItem, length_modifyItem, length_modifyItem, length_modifyItem, hlen]
        simp
      · show lru.first = _
        rw [hfirst]
        cases s <;> simp [headOr]
      · show some n.id = _
        rw [lastOr_append]
        rfl
      · show chainSeg (modifyItem (modifyItem (modifyItem (modifyItem lru.items p.id
            (fun it => { it with next := some m.id })) m.id
            (fun it => { it with previous := some p.id })) n.id
            (fun it => { it with previous := some z.id, next := none })) z.id
            (fun it => { it with next := some n.id })) none
            ((s ++ [p]) ++ (m :: t₂) ++ [n]) none
        rw [List.append_assoc (s ++ [p]), chainSeg_append_iff]
        constructor
        · -- the front segment, its tail pointer retargeted from n to m
          have step1 : chainSeg (modifyItem lru.items p.id
              (fun it => { it with next := some m.id })) none (s ++ [p]) (some m.id) :=
            chainSeg_retarget_last (x := some m.id) hnd1 hc1
          have step2 : chainSeg (modifyItem (modifyItem lru.items p.id
              (fun it => { it with next := some m.id })) m.id
              (fun it => { it with previous := some p.id })) none (s ++ [p]) (some m.id) :=
            chainSeg_congr (fun x hx => lookupItem_modifyItem_ne _ _
              (hne12 x hx m (by simp))) step1
          have step3 : chainSeg (modifyItem (modifyItem (modifyItem lru.items p.id
              (fun it => { it with next := some m.id })) m.id
              (fun it => { it with previous := some p.id })) n.id
              (fun it => { it with previous := some z.id, next := none }))
              none (s ++ [p]) (some m.id) :=
            chainSeg_congr (fun x hx => lookupItem_modifyItem_ne _ _ (hne1 x hx)) step2
          have step4 : chainSeg (modifyItem (modifyItem (modifyItem (modifyItem lru.items p.id
              (fun it => { it with next := some m.id })) m.id
              (fun it => { it with previous := some p.id })) n.id
              (fun it => { it with previous := some z.id, next := none })) z.id
              (fun it => { it with next := some n.id }))
              none (s ++ [p]) (some m.id) :=
            chainSeg_congr (fun x hx => lookupItem_modifyItem_ne _ _
              (hne12 x hx z hzmem)) step3
          simpa [headOr_append, headOr] using step4
        · rw [chainSeg_append_iff]
          constructor
          · -- the moved-over tail segment: head reprevved to p, z renexted to n
            have step1 : chainSeg (modifyItem lru.items p.id
                (fun it => { it with next := some m.id }))
                (some n.id) (m :: t₂) none :=
              chainSeg_congr (fun x hx => lookupItem_modifyItem_ne _ _
                (fun hh => hne12 p hpmem x hx hh.symm)) hc2
            have step2 : chainSeg (modifyItem (modifyItem lru.items p.id
                (fun it => { it with next := some m.id })) m.id
                (fun it => { it with previous := some p.id }))
                (some p.id) (m :: t₂) none :=
              chainSeg_retarget_head hnd2 step1
            have step3 : chainSeg (modifyItem (modifyItem (modifyItem lru.items p.id
                (fun it => { it with next := some m.id })) m.id
                (fun it => { it with previous := some p.id })) n.id
                (fun it => { it with previous := some z.id, next := none }))
                (some p.id) (m :: t₂) none :=
              chainSeg_congr (fun x hx => lookupItem_modifyItem_ne _ _ (hne2 x hx)) step2
            rw [hzdec] at step3 ⊢
            have hnd2' : ((t' ++ [z]).map PCNode.id).Nodup := by rw [← hzdec]; exact hnd2
            have step4 := chainSeg_retarget_last (x := some n.id) hnd2' step3
            have hlast1 : lastOr (none : Option ℕ) (s ++ [p]) = some p.id := hprev
            simpa [headOr_append, headOr, hlast1] using step4
          · refine ⟨?_, trivial⟩
            have u1 : lookupItem (modifyItem lru.items p.id
                (fun it => { it with next := some m.id })) n.id =
                some ⟨n, some p.id, some m.id⟩ := by
              rw [lookupItem_modifyItem_ne _ _ (fun hh => hpn hh.symm), hlookupn]
            have u2 : lookupItem (modifyItem (modifyItem lru.items p.id
                (fun it => { it with next := some m.id })) m.id
                (fun it => { it with previous := some p.id })) n.id =
                some ⟨n, some p.id, some m.id⟩ := by
              rw [lookupItem_modifyItem_ne _ _ (fun hh => hmn hh.symm), u1]
            have u3 : lookupItem (modifyItem (modifyItem (modifyItem lru.items p.id
                (fun it => { it with next := some m.id })) m.id
                (fun it => { it with previous := some p.id })) n.id
                (fun it => { it with previous := some z.id, next := none })) n.id =
                some ⟨n, some z.id, none⟩ := by
              rw [lookupItem_modifyItem_self, u2]
              rfl
            rw [lookupItem_modifyItem_ne _ _ (Ne.symm hzn), u3, hzdec, lastOr_append]
            rfl
      · show lru.numPoints = _
        rw [hnum]
        simpa using hsum

end TouchExistingMain

section TouchMain

variable {β V K : Type}

theorem touch_not_loaded {lru : LRU β V K} {n : PCNode β V K}
    (h : n.loaded = false) : lru.touch n = lru := by
  simp [LRU.touch, h]

theorem filter_middle_eq {l₁ l₂ : List (PCNode β V K)} {n : PCNode β V K}
    (hnd : ((l₁ ++ n :: l₂).map PCNode.id).Nodup) :
    ((l₁ ++ n :: l₂).filter fun m => m.id ≠ n.id) = l₁ ++ l₂ := by
  obtain ⟨-, -, hne1, hne2, -⟩ := nodup_middle_facts hnd
  have h1 : List.filter (fun m => !decide (m.id = n.id)) l₁ = l₁ :=
    List.filter_eq_self.mpr (fun m hm => by simp [hne1 m hm])
  have h2 : List.filter (fun m => !decide (m.id = n.id)) l₂ = l₂ :=
    List.filter_eq_self.mpr (fun m hm => by simp [hne2 m hm])
  simp [List.filter_append, List.filter_cons, h1, h2]

theorem filter_not_mem_eq {l : List (PCNode β V K)} {n : PCNode β V K}
    (hid : n.id ∉ l.map PCNode.id) :
    (l.filter fun m => m.id ≠ n.id) = l := by
  refine List.filter_eq_self.mpr (fun m hm => ?_)
  simp only [ne_eq, decide_not, Bool.not_eq_eq_eq_not, Bool.not_true, decide_eq_false_iff_not]
  exact fun he => hid (he ▸ List.mem_map_of_mem _ hm)

theorem rep_touch {lru : LRU β V K} {l : List (PCNode β V K)} {n : PCNode β V K}
    (h : lru.rep l) (hld : n.loaded = true)
    (hcons : ∀ m ∈ l, m.id = n.id → m = n) :
    (lru.touch n).rep (upsert l n) := by
  cases hlk : lookupItem lru.items n.id with
  | none =>
    have hid : n.id ∉ l.map PCNode.id := by
      intro hmem
      obtain ⟨m, hm, hmid⟩ := List.mem_map.mp hmem
      obtain ⟨it, hit, -⟩ := chainSeg_lookup_node h.2.2.2.2.2.1 hm
      rw [hmid, hlk] at hit
      cases hit
    have htouch : lru.touch n = lru.addNew n := by
      simp [LRU.touch, hld, hlk]
    rw [htouch, upsert, filter_not_mem_eq hid]
    exact rep_addNew h hid
  | some it =>
    have hmem : n.id ∈ l.map PCNode.id := rep_mem_ids_of_lookup h hlk
    obtain ⟨m, hm, hmid⟩ := List.mem_map.mp hmem
    have hmn : m = n := hcons m hm hmid
    subst hmn
    obtain ⟨s, t, rfl⟩ := List.append_of_mem hm
    have htouch : lru.touch m = lru.touchExisting m.id := by
      simp [LRU.touch, hld, hlk]
    rw [htouch, upsert, filter_middle_eq h.1]
    exact rep_touchExisting h

end TouchMain

section RemoveMain

variable {β V K : Type}

theorem remove_absent {lru : LRU β V K} {n : PCNode β V K}
    (h : lookupItem lru.items n.id = none) : lru.remove n = lru := by
  simp [LRU.remove, h]

theorem rep_remove {lru : LRU β V K} {l : List (PCNode β V K)} {n : PCNode β V K}
    (h : lru.rep l)
    (hpts : ∀ m ∈ l, m.id = n.id → m.data.numPoints = n.data.numPoints) :
    (lru.remove n).rep (l.filter fun m => m.id ≠ n.id) := by
  cases hlk : lookupItem lru.items n.id with
  | none =>
    have hid : n.id ∉ l.map PCNode.id := by
      intro hmem
      obtain ⟨m, hm, hmid⟩ := List.mem_map.mp hmem
      obtain ⟨it, hit, -⟩ := chainSeg_lookup_node h.2.2.2.2.2.1 hm
      rw [hmid, hlk] at hit
      cases hit
    rw [remove_absent hlk, filter_not_mem_eq hid]
    exact h
  | some it =>
    have hmem : n.id ∈ l.map PCNode.id := rep_mem_ids_of_lookup h hlk
    obtain ⟨m, hm, hmid⟩ := List.mem_map.mp hmem
    obtain ⟨l₁, l₂, rfl⟩ := List.append_of_mem hm
    obtain ⟨hnd, hknd, hlen, hfirst, hlast, hchain, hnum⟩ := h
    obtain ⟨hnd1, hnd2, hne1m, hne2m, hne12⟩ := nodup_middle_facts hnd
    have hdecomp := chainSeg_append_iff.mp hchain
    have hc1 : chainSeg lru.items none l₁ (some m.id) := hdecomp.1
    have hc2 : chainSeg lru.items (some m.id) l₂ none := hdecomp.2.2
    have hlkm : lookupItem lru.items n.id =
        some ⟨m, lastOr none l₁, headOr l₂ none⟩ := by
      rw [← hmid]
      exact hdecomp.2.1
    have hne1 : ∀ x ∈ l₁, x.id ≠ n.id := fun x hx => hmid ▸ hne1m x hx
    have hne2 : ∀ x ∈ l₂, x.id ≠ n.id := fun x hx => hmid ▸ hne2m x hx
    have hmpts : ((m.data.numPoints : ℤ)) = ((n.data.numPoints : ℤ)) := by
      exact congrArg (fun x : ℕ => (x : ℤ)) (hpts m hm hmid)
    have hfil : ((l₁ ++ m :: l₂).filter fun x => x.id ≠ n.id) = l₁ ++ l₂ := by
      rw [← hmid]
      exact filter_middle_eq hnd
    rw [hfil]
    by_cases hone : lru.items.length = 1
    · have hll : (l₁ ++ m :: l₂).length = 1 := by rw [← hlen]; exact hone
      have hl1 : l₁ = [] := by
        cases l₁ with
        | nil => rfl
        | cons a t => simp [List.length_append] at hll
      subst hl1
      have hl2 : l₂ = [] := by
        cases l₂ with
        | nil => rfl
        | cons a t => simp at hll
      subst hl2
      have heq : lru.remove n =
          ({ first := none
             last := none
             items := eraseItem lru.items n.id
             numPoints := lru.numPoints - n.numPoints
             pointBudget := lru.pointBudget } : LRU β V K) := by
        simp only [LRU.remove, hlkm]
        rw [if_pos hone]
      have herz : eraseItem lru.items n.id = [] := by
        have hl := length_eraseItem_present lru.items n.id hlk
        rw [hone] at hl
        exact List.length_eq_zero.mp (by omega)
      rw [heq, herz]
      refine ⟨by simp, by simp, by simp, rfl, rfl, trivial, ?_⟩
      show lru.numPoints - (n.numPoints : ℤ) = _
      rw [hnum]
      simp only [List.nil_append, List.map_cons, List.map_nil, List.sum_cons, List.sum_nil,
        List.filter_nil, PCNode.numPoints]
      rw [hmpts]
      ring
    · rcases l₂ with _ | ⟨m', t₂⟩
      · -- removing the most recent cell: fix `last` and the old predecessor
        have hl1ne : l₁ ≠ [] := by
          intro hh
          apply hone
          rw [hlen, hh]
          rfl
        rcases List.eq_nil_or_concat' l₁ with rfl | ⟨s, p, rfl⟩
        · exact absurd rfl hl1ne
        have hprev : lastOr (none : Option ℕ) (s ++ [p]) = some p.id := by
          rw [lastOr_append]
          rfl
        have hpn : p.id ≠ n.id := hne1 p (List.mem_append_right _ (by simp))
        have heq : lru.remove n =
            ({ first := lru.first
               last := some p.id
               items := eraseItem (modifyItem lru.items p.id
                 (fun it => { it with next := none })) n.id
               numPoints := lru.numPoints - n.numPoints
               pointBudget := lru.pointBudget } : LRU β V K) := by
          simp only [LRU.remove, hlkm, hprev, headOr]
          rw [if_neg hone]
        rw [heq]
        have hlkmod : lookupItem (modifyItem lru.items p.id
            (fun it => { it with next := none })) n.id =
            some ⟨m, some p.id, headOr ([] : List (PCNode β V K)) none⟩ := by
          rw [lookupItem_modifyItem_ne _ _ (Ne.symm hpn), hlkm, hprev]
        refine ⟨by simpa using hnd1, ?_, ?_, ?_, ?_, ?_, ?_⟩
        · show ((eraseItem _ _).map Prod.fst).Nodup
          refine (keys_eraseItem_sublist _ _).nodup ?_
          rw [keys_modifyItem]
          exact hknd
        · show (eraseItem _ _).length = _
          have he := length_eraseItem_present _ n.id hlkmod
          rw [length_modifyItem, hlen] at he
          simp only [List.length_append, List.length_cons, List.length_nil] at he ⊢
          omega
        · show lru.first = _
          rw [hfirst]
          cases s <;> simp [headOr]
        · show some p.id = _
          rw [List.append_nil]
          exact hprev.symm
        · show chainSeg _ none ((s ++ [p]) ++ []) none
          rw [List.append_nil]
          have step1 : chainSeg (modifyItem lru.items p.id
              (fun it => { it with next := none })) none (s ++ [p]) none :=
            chainSeg_retarget_last (x := none) hnd1 hc1
          exact chainSeg_congr
            (fun x hx => lookupItem_eraseItem_ne _ (hne1 x hx)) step1
        · show lru.numPoints - (n.numPoints : ℤ) = _
          rw [hnum]
          simp only [List.append_nil, List.map_append, List.sum_append, List.map_cons,
            List.map_nil, List.sum_cons, List.sum_nil, PCNode.numPoints]
          rw [hmpts]
          ring
      · rcases List.eq_nil_or_concat' l₁ with rfl | ⟨s, p, rfl⟩
        · -- removing the least recent cell: fix `first` and the old successor
          have hnext : headOr (m' :: t₂) (none : Option ℕ) = some m'.id := rfl
          have hmn' : m'.id ≠ n.id := hne2 m' (by simp)
          have heq : lru.remove n =
              ({ first := some m'.id
                 last := lru.last
                 items := eraseItem (modifyItem lru.items m'.id
                   (fun it => { it with previous := none })) n.id
                 numPoints := lru.numPoints - n.numPoints
                 pointBudget := lru.pointBudget } : LRU β V K) := by
            simp only [LRU.remove, hlkm, hnext, lastOr, List.getLast?_nil]
            rw [if_neg hone]
          rw [heq]
          have hlkmod : lookupItem (modifyItem lru.items m'.id
              (fun it => { it with previous := none })) n.id =
              some ⟨m, lastOr none ([] : List (PCNode β V K)), some m'.id⟩ := by
            rw [lookupItem_modifyItem_ne _ _ (Ne.symm hmn'), hlkm, hnext]
          refine ⟨by simpa using hnd2, ?_, ?_, ?_, ?_, ?_, ?_⟩
          · show ((eraseItem _ _).map Prod.fst).Nodup
            refine (keys_eraseItem_sublist _ _).nodup ?_
            rw [keys_modifyItem]
            exact hknd
          · show (eraseItem _ _).length = _
            have he := length_eraseItem_present _ n.id hlkmod
            rw [length_modifyItem, hlen] at he
            simp only [List.length_append, List.length_cons, List.length_nil] at he ⊢
            omega
          · rfl
          · show lru.last = _
            rw [hlast]
            simp [List.nil_append, lastOr_cons]
          · show chainSeg _ none (([] : List (PCNode β V K)) ++ m' :: t₂) none
            rw [List.nil_append]
            have step1 : chainSeg (modifyItem lru.items m'.id
                (fun it => { it with previous := none })) none (m' :: t₂) none :=
              chainSeg_retarget_head hnd2 hc2
            exact chainSeg_congr
              (fun x hx => lookupItem_eraseItem_ne _ (hne2 x hx)) step1
          · show lru.numPoints - (n.numPoints : ℤ) = _
            rw [hnum]
            simp only [List.nil_append, List.map_cons, List.sum_cons, PCNode.numPoints]
            rw [hmpts]
            ring
        · -- removing an interior cell: relink predecessor and successor
          have hnext : headOr (m' :: t₂) (none : Option ℕ) = some m'.id := rfl
          have hprev : lastOr (none : Option ℕ) (s ++ [p]) = some p.id := by
            rw [lastOr_append]
            rfl
          have hpmem : p ∈ s ++ [p] := List.mem_append_right _ (by simp)
          have hpn : p.id ≠ n.id := hne1 p hpmem
          have hmn' : m'.id ≠ n.id := hne2 m' (by simp)
          have hpm' : p.id ≠ m'.id := hne12 p hpmem m' (by simp)
          have heq : lru.remove n =
              ({ first := lru.first
                 last := lru.last
                 items := eraseItem (modifyItem (modifyItem lru.items p.id
                     (fun it => { it with next := some m'.id })) m'.id
                     (fun it => { it with previous := some p.id })) n.id
                 numPoints := lru.numPoints - n.numPoints
                 pointBudget := lru.pointBudget } : LRU β V K) := by
            simp only [LRU.remove, hlkm, hnext, hprev]
            rw [if_neg hone]
          rw [heq]
          have hlkmod : lookupItem (modifyItem (modifyItem lru.items p.id
              (fun it => { it with next := some m'.id })) m'.id
              (fun it => { it with previous := some p.id })) n.id =
              some ⟨m, some p.id, some m'.id⟩ := by
            rw [lookupItem_modifyItem_ne _ _ (Ne.symm hmn'),
              lookupItem_modifyItem_ne _ _ (Ne.symm hpn), hlkm, hnext, hprev]
          have hndtgt : ((s ++ [p] ++ m' :: t₂).map PCNode.id).Nodup := by
            rw [List.map_append, List.nodup_append]
            exact ⟨hnd1, hnd2, fun x hx hy => by
              obtain ⟨a, ha, rfl⟩ := List.mem_map.mp hx
              obtain ⟨b, hb, hab⟩ := List.mem_map.mp hy
              exact hne12 a ha b hb hab.symm⟩
          refine ⟨hndtgt, ?_, ?_, ?_, ?_, ?_, ?_⟩
          · show ((eraseItem _ _).map Prod.fst).Nodup
            refine (keys_eraseItem_sublist _ _).nodup ?_
            rw [keys_modifyItem, keys_modifyItem]
            exact hknd
          · show (eraseItem _ _).length = _
            have he := length_eraseItem_present _ n.id hlkmod
            rw [length_modifyItem, length_modifyItem, hlen] at he
            simp only [List.length_append, List.length_cons] at he ⊢
            omega
          · show lru.first = _
            rw [hfirst]
            cases s <;> simp [headOr]
          · show lru.last = _
            rw [hlast]
            simp [lastOr_append, lastOr_cons]
          · show chainSeg _ none ((s ++ [p]) ++ m' :: t₂) none
            rw [chainSeg_append_iff]
            constructor
            · have step1 : chainSeg (modifyItem lru.items p.id
                  (fun it => { it with next := some m'.id })) none (s ++ [p])
                  (some m'.id) :=
                chainSeg_retarget_last (x := some m'.id) hnd1 hc1
              have step2 : chainSeg (modifyItem (modifyItem lru.items p.id
                  (fun it => { it with next := some m'.id })) m'.id
                  (fun it => { it with previous := some p.id })) none (s ++ [p])
                  (some m'.id) :=
                chainSeg_congr (fun x hx => lookupItem_modifyItem_ne _ _
                  (hne12 x hx m' (by simp))) step1
              have step3 := chainSeg_congr
                (fun x hx => lookupItem_eraseItem_ne _ (hne1 x hx)) step2
              simpa [headOr] using step3
            · have step1 : chainSeg (modifyItem lru.items p.id
                  (fun it => { it with next := some m'.id })) (some m.id) (m' :: t₂)
                  none :=
                chainSeg_congr (fun x hx => lookupItem_modifyItem_ne _ _
                  (fun hh => hne12 p hpmem x hx hh.symm)) hc2
              have step2 : chainSeg (modifyItem (modifyItem lru.items p.id
                  (fun it => { it with next := some m'.id })) m'.id
                  (fun it => { it with previous := some p.id })) (some p.id) (m' :: t₂)
                  none :=
                chainSeg_retarget_head hnd2 step1
              have step3 := chainSeg_congr
                (fun x hx => lookupItem_eraseItem_ne _ (hne2 x hx)) step2
              simpa [hprev] using step3
          · show lru.numPoints - (n.numPoints : ℤ) = _
            rw [hnum]
            simp only [List.map_append, List.sum_append, List.map_cons, List.sum_cons,
              PCNode.numPoints]
            rw [hmpts]
            ring

end RemoveMain

/-! ### The eviction pass -/

section FreeMemoryLemmas

variable {β V K : Type}

theorem remove_pointBudget (lru : LRU β V K) (n : PCNode β V K) :
    (lru.remove n).pointBudget = lru.pointBudget := by
  unfold LRU.remove
  split
  · rfl
  next item heq =>
    split
    · rfl
    · rcases item with ⟨nd, pv, nx⟩
      rcases pv <;> rcases nx <;> rfl

theorem length_filter_ne_lt {l : List (PCNode β V K)} {r : PCNode β V K} (hr : r ∈ l) :
    (l.filter fun m => m.id ≠ r.id).length < l.length := by
  rcases Nat.lt_or_ge ((l.filter fun m => m.id ≠ r.id).length) l.length with hlt | hge
  · exact hlt
  · exfalso
    have hsub := List.filter_sublist (p := fun m : PCNode β V K => decide (m.id ≠ r.id)) l
    have hlen := Nat.le_antisymm hsub.length_le hge
    have hmem : r ∈ l.filter fun m => m.id ≠ r.id := by
      rw [hsub.eq_of_length hlen]
      exact hr
    have := List.of_mem_filter hmem
    simp at this

theorem rep_foldRemove {lru : LRU β V K} {l : List (PCNode β V K)}
    (ds : List (PCNode β V K)) (h : lru.rep l)
    (hpts : ∀ d ∈ ds, ∀ m ∈ l, m.id = d.id → m.data.numPoints = d.data.numPoints) :
    ∃ l', (ds.foldl (fun acc x => acc.remove x) lru).rep l' ∧
      l'.Sublist l ∧
      (ds.foldl (fun acc x => acc.remove x) lru).pointBudget = lru.pointBudget := by
  induction ds generalizing lru l with
  | nil => exact ⟨l, h, List.Sublist.refl l, rfl⟩
  | cons d ds' ih =>
    have h1 : (lru.remove d).rep (l.filter fun m => m.id ≠ d.id) :=
      rep_remove h (hpts d (by simp))
    have hpts' : ∀ e ∈ ds', ∀ m ∈ (l.filter fun x => x.id ≠ d.id), m.id = e.id →
        m.data.numPoints = e.data.numPoints := by
      intro e he m hm heq
      exact hpts e (by simp [he]) m (List.mem_of_mem_filter hm) heq
    obtain ⟨l', hrep', hsub', hbud'⟩ := ih h1 hpts'
    refine ⟨l', hrep', hsub'.trans (List.filter_sublist l), ?_⟩
    rw [List.foldl_cons, hbud', remove_pointBudget]

theorem subtreeCoherent_of_sublist {l l' : List (PCNode β V K)}
    (hsub : l'.Sublist l) (h : subtreeCoherent l) : subtreeCoherent l' :=
  fun m hm d hd m' hm' he => h m (hsub.mem hm) d hd m' (hsub.mem hm') he

theorem freeLoop_spec {lru : LRU β V K} {l : List (PCNode β V K)} {fuel : ℕ}
    (h : lru.rep l) (hcoh : subtreeCoherent l) (hb : 0 ≤ lru.pointBudget)
    (hfuel : l.length ≤ fuel) :
    (lru.freeLoop fuel).numPoints ≤ 2 * lru.pointBudget ∧
      (lru.freeLoop fuel).pointBudget = lru.pointBudget := by
  induction fuel generalizing lru l with
  | zero =>
    have hl : l = [] := List.length_eq_zero.mp (Nat.le_zero.mp hfuel)
    subst hl
    have hnum := h.2.2.2.2.2.2
    simp only [List.map_nil, List.sum_nil] at hnum
    exact ⟨by rw [LRU.freeLoop, hnum]; linarith, rfl⟩
  | succ fuel ih =>
    rw [LRU.freeLoop]
    by_cases hcond : lru.numPoints > lru.pointBudget * 2
    · rw [if_pos hcond]
      -- the tracked total is positive, so the list is non-empty
      cases hl : l with
      | nil =>
        exfalso
        have hnum := h.2.2.2.2.2.2
        rw [hl] at hnum
        simp only [List.map_nil, List.sum_nil] at hnum
        rw [hnum] at hcond
        linarith
      | cons r t =>
        subst hl
        have hfirst := h.2.2.2.1
        have hchain := h.2.2.2.2.2.1
        have hnd := h.1
        have hget : lru.getLRUItem = some r := by
          simp only [LRU.getLRUItem, hfirst, headOr]
          rw [hchain.1]
          rfl
        rw [hget]
        -- one `disposeSubtree` pass removes r and its loaded descendants
        have hrstep : (lru.remove r).rep ((r :: t).filter fun m => m.id ≠ r.id) :=
          rep_remove h (fun m hm heq => by
            rcases List.mem_cons.mp hm with rfl | hm'
            · rfl
            · exfalso
              simp only [List.map_cons, List.nodup_cons] at hnd
              exact hnd.1 (heq ▸ List.mem_map_of_mem _ hm'))
        have hptsd : ∀ e ∈ (r.descendants.filter fun x => x.loaded),
            ∀ m ∈ ((r :: t).filter fun x => x.id ≠ r.id), m.id = e.id →
            m.data.numPoints = e.data.numPoints := by
          intro e he m hm heq
          exact hcoh r (by simp) e (List.mem_of_mem_filter he) m
            (List.mem_of_mem_filter hm) heq
        obtain ⟨l', hrep', hsub', hbud'⟩ := rep_foldRemove
          (r.descendants.filter fun x => x.loaded) hrstep hptsd
        have hdisp : lru.disposeSubtree r =
            ((r.descendants.filter fun x => x.loaded).foldl
              (fun acc x => acc.remove x) (lru.remove r)) := by
          rw [LRU.disposeSubtree, List.foldl_cons]
        rw [← hdisp] at hrep' hbud'
        have hlt : l'.length < (r :: t).length :=
          Nat.lt_of_le_of_lt hsub'.length_le (length_filter_ne_lt (by simp))
        have hcoh' : subtreeCoherent l' :=
          subtreeCoherent_of_sublist (hsub'.trans (List.filter_sublist _)) hcoh
        have hbudd : (lru.disposeSubtree r).pointBudget = lru.pointBudget := by
          rw [hbud', remove_pointBudget]
        have hres := ih hrep' hcoh' (by rw [hbudd]; exact hb)
          (by omega)
        refine ⟨?_, ?_⟩
        · rw [hbudd] at hres
          exact hres.1
        · rw [hres.2, hbudd]
    · rw [if_neg hcond]
      exact ⟨by linarith, rfl⟩

end FreeMemoryLemmas

theorem freeMemory_spec {β V K : Type} {lru : LRU β V K} {l : List (PCNode β V K)}
    (h : lru.rep l) (hcoh : subtreeCoherent l) (hb : 0 ≤ lru.pointBudget) :
    (lru.freeMemory.numPoints ≤ 2 * lru.freeMemory.pointBudget ∨
      lru.freeMemory.items.length ≤ 1) ∧
    lru.freeMemory.pointBudget = lru.pointBudget ∧
    (lru.items.length ≤ 1 → lru.freeMemory = lru) ∧
    (2 ≤ lru.items.length → lru.freeMemory.numPoints ≤ 2 * lru.pointBudget) := by
  by_cases hone : lru.items.length ≤ 1
  · have heq : lru.freeMemory = lru := by
      rw [LRU.freeMemory, if_pos hone]
    rw [heq]
    exact ⟨Or.inr hone, rfl, fun _ => rfl, fun h2 => absurd h2 (by omega)⟩
  · have heq : lru.freeMemory = lru.freeLoop lru.items.length := by
      rw [LRU.freeMemory, if_neg hone]
    have hfuel : l.length ≤ lru.items.length := (h.2.2.1).ge
    have hfl := freeLoop_spec h hcoh hb hfuel
    rw [heq]
    refine ⟨Or.inl ?_, hfl.2, fun hc => absurd hc hone, fun _ => hfl.1⟩
    rw [hfl.2]
    exact hfl.1

/-! ### Observable list order and touch sequences -/

section OrderLemmas

variable {β V K : Type}

theorem chainIds_eq {items : List (ℕ × LRUItem β V K)} :
    ∀ (l : List (PCNode β V K)) (q : Option ℕ) (fuel : ℕ), l.length ≤ fuel →
    chainSeg items q l none → chainIds items fuel (headOr l none) = l.map PCNode.id := by
  intro l
  induction l with
  | nil =>
    intro q fuel hf hc
    cases fuel <;> rfl
  | cons n rest ih =>
    intro q fuel hf hc
    cases fuel with
    | zero => simp at hf
    | succ f =>
      show chainIds items (f + 1) (some n.id) = _
      rw [chainIds, hc.1]
      have := ih (some n.id) f (by simpa using hf) hc.2
      simp only [List.map_cons]
      rw [← this]

theorem orderIds_of_rep {lru : LRU β V K} {l : List (PCNode β V K)} (h : lru.rep l) :
    lru.orderIds = l.map PCNode.id := by
  rw [LRU.orderIds, h.2.2.2.1, h.2.2.1]
  exact chainIds_eq l none l.length (le_refl _) h.2.2.2.2.2.1

theorem rep_init (b : ℤ) : ({ pointBudget := b } : LRU β V K).rep [] :=
  ⟨by simp, by simp, rfl, rfl, rfl, trivial, rfl⟩

theorem rep_touch_fold {lru : LRU β V K} {l : List (PCNode β V K)}
    (seq : List (PCNode β V K)) (h : lru.rep l)
    (hld : ∀ x ∈ seq, x.loaded = true)
    (hcons : ∀ a ∈ seq, ∀ b ∈ seq, a.id = b.id → a = b)
    (hmem : ∀ m ∈ l, ∀ b ∈ seq, m.id = b.id → m = b) :
    (seq.foldl (fun acc x => acc.touch x) lru).rep (seq.foldl upsert l) := by
  induction seq generalizing lru l with
  | nil => exact h
  | cons x seq' ih =>
    rw [List.foldl_cons, List.foldl_cons]
    have hstep : (lru.touch x).rep (upsert l x) :=
      rep_touch h (hld x (by simp))
        (fun m hm heq => hmem m hm x (by simp) heq)
    refine ih hstep (fun y hy => hld y (by simp [hy]))
      (fun a ha b hb heq => hcons a (by simp [ha]) b (by simp [hb]) heq) ?_
    intro m hm b hb heq
    rcases List.mem_append.mp hm with hm' | hm'
    · exact hmem m (List.mem_of_mem_filter hm') b (by simp [hb]) heq
    · simp only [List.mem_singleton] at hm'
      subst hm'
      exact hcons m (by simp) b (by simp [hb]) heq

theorem touch_numPoints_of_mem {lru : LRU β V K} {l : List (PCNode β V K)}
    {n : PCNode β V K} (h : lru.rep l) (hn : n ∈ l) (hld : n.loaded = true)
    (hcons : ∀ m ∈ l, m.id = n.id → m = n) :
    (lru.touch n).numPoints = lru.numPoints ∧
      (lru.touch n).orderIds = (upsert l n).map PCNode.id := by
  have hrep' := rep_touch h hld hcons
  refine ⟨?_, orderIds_of_rep hrep'⟩
  rw [hrep'.2.2.2.2.2.2, h.2.2.2.2.2.2]
  obtain ⟨l₁, l₂, rfl⟩ := List.append_of_mem hn
  rw [upsert, filter_middle_eq h.1]
  exact (((perm_move_to_end l₁ l₂ n).map _).sum_eq).symm

end OrderLemmas

/-! ### Shared concrete facts for witnesses -/

theorem lruTwo_rep : lruTwo.rep lruTwoList := by
  refine ⟨by decide, by decide, rfl, rfl, rfl, ⟨rfl, rfl, trivial⟩, by decide⟩

theorem lruTwoList_coh : subtreeCoherent lruTwoList := by
  intro m hm d hd
  exfalso
  rcases List.mem_cons.mp hm with rfl | hm'
  · simp [leafNode, PCNode.descendants, PCNode.descendants.go] at hd
  · rcases List.mem_cons.mp hm' with rfl | hm''
    · simp [leafNode, PCNode.descendants, PCNode.descendants.go] at hd
    · simp at hm''

/-! ### Claim theorems for the cache -/

/-- C3: for every cache whose pointer structure represents a recency list
`l` of id-coherent subtrees and whose budget is nonnegative, after
`freeMemory()` returns, either the tracked resident point total satisfies
`numPoints ≤ 2 * pointBudget`, or the cache holds at most one item. -/
theorem claim_C3_freeMemory_hysteresis {β V K : Type} (lru : LRU β V K)
    (l : List (PCNode β V K)) (h : lru.rep l) (hcoh : subtreeCoherent l)
    (hb : 0 ≤ lru.pointBudget) :
    lru.freeMemory.numPoints ≤ 2 * lru.freeMemory.pointBudget ∨
      lru.freeMemory.items.length ≤ 1 :=
  (freeMemory_spec h hcoh hb).1

theorem claim_C3_witness :
    (0 ≤ lruTwo.pointBudget) ∧
    (lruTwo.freeMemory.numPoints ≤ 2 * lruTwo.freeMemory.pointBudget ∨
      lruTwo.freeMemory.items.length ≤ 1) :=
  ⟨by decide, claim_C3_freeMemory_hysteresis lruTwo lruTwoList lruTwo_rep
    lruTwoList_coh (by decide)⟩

/-- C4 as stated is false: `freeMemory()` checks `size ≤ 1` only once at
entry, so a cache holding two items, each of 20 points, with budget 5
(so `numPoints = 40 > 2 * 5`) is emptied completely — the returned cache
holds zero items although the cache was non-empty when `freeMemory()` was
called. -/
theorem claim_C4_counterexample :
    lruTwo.items.length = 2 ∧ lruTwo.freeMemory.items.length = 0 := by
  constructor
  · rfl
  · decide

/-- C4 amended: the `more than one item` check happens only once, on
entry: `freeMemory()` returns immediately when at most one item is
present, and otherwise the loop evicts while `numPoints > 2 × budget`,
possibly emptying the cache completely (so a non-empty cache need not
stay non-empty). -/
theorem claim_C4_freeMemory_amended {β V K : Type} (lru : LRU β V K)
    (l : List (PCNode β V K)) (h : lru.rep l) (hcoh : subtreeCoherent l)
    (hb : 0 ≤ lru.pointBudget) :
    (lru.items.length ≤ 1 → lru.freeMemory = lru) ∧
    (2 ≤ lru.items.length → lru.freeMemory.numPoints ≤ 2 * lru.pointBudget) :=
  ⟨(freeMemory_spec h hcoh hb).2.2.1, (freeMemory_spec h hcoh hb).2.2.2⟩

theorem claim_C4_witness :
    (0 ≤ lruTwo.pointBudget) ∧ (2 ≤ lruTwo.items.length) ∧
    lruTwo.freeMemory.numPoints ≤ 2 * lruTwo.pointBudget :=
  ⟨by decide, by decide,
    (claim_C4_freeMemory_amended lruTwo lruTwoList lruTwo_rep lruTwoList_coh
      (by decide)).2 (by decide)⟩

/-- C10: `remove(node)` for a node that has no item in the cache is a
silent no-op: the whole cache state — the linked list, the id-to-item
index and the `numPoints` total — is returned unchanged. -/
theorem claim_C10_remove_absent_noop {β V K : Type} (lru : LRU β V K)
    (n : PCNode β V K) (h : lookupItem lru.items n.id = none) :
    lru.remove n = lru :=
  remove_absent h

theorem claim_C10_witness :
    lookupItem lruTwo.items (leafNode 99 5 1 true false 0).id = none ∧
    lruTwo.remove (leafNode 99 5 1 true false 0) = lruTwo :=
  ⟨rfl, claim_C10_remove_absent_noop lruTwo (leafNode 99 5 1 true false 0) rfl⟩

/-- C8: setting `pointBudget` to a different (nonnegative) value updates
the scheduler's budget and the cache's budget to the new value and
re-runs `freeMemory()`, after which the cache satisfies
`numPoints ≤ 2 × newBudget` or holds at most one item. -/
theorem claim_C8_setPointBudget {β V K : Type} [Inhabited β] [Inhabited V]
    [LinearOrderedField K] (potree : PotreeM β V K) (value : ℤ)
    (l : List (PCNode β V K)) (h : potree.lru.rep l) (hcoh : subtreeCoherent l)
    (hv : 0 ≤ value) (hne : value ≠ potree.pointBudget) :
    (Potree.setPointBudget potree value).pointBudget = value ∧
    (Potree.setPointBudget potree value).lru.pointBudget = value ∧
    ((Potree.setPointBudget potree value).lru.numPoints ≤ 2 * value ∨
      (Potree.setPointBudget potree value).lru.items.length ≤ 1) := by
  have heq : Potree.setPointBudget potree value =
      { potree with
        pointBudget := value
        lru := ({ potree.lru with pointBudget := value } : LRU β V K).freeMemory } := by
    rw [Potree.setPointBudget, if_pos hne]
  have h1 : ({ potree.lru with pointBudget := value } : LRU β V K).rep l := h
  have hspec := freeMemory_spec h1 hcoh (by exact hv)
  rw [heq]
  refine ⟨rfl, ?_, ?_⟩
  · exact hspec.2.1
  · rcases hspec.1 with hle | hone
    · left
      rw [hspec.2.1] at hle
      exact hle
    · right
      exact hone

theorem claim_C8_witness :
    (0 ≤ (5 : ℤ)) ∧ ((5 : ℤ) ≠ potreeW.pointBudget) ∧
    ((Potree.setPointBudget potreeW 5).pointBudget = 5 ∧
     (Potree.setPointBudget potreeW 5).lru.pointBudget = 5 ∧
     ((Potree.setPointBudget potreeW 5).lru.numPoints ≤ 2 * 5 ∨
       (Potree.setPointBudget potreeW 5).lru.items.length ≤ 1)) :=
  ⟨by decide, by decide,
    claim_C8_setPointBudget potreeW 5 lruTwoList lruTwo_rep lruTwoList_coh
      (by decide) (by decide)⟩

/-- C5: (1) for every sequence of `touch` calls on loaded, id-consistent
nodes starting from a fresh cache, the doubly linked list order observable
from `first` through the `next` pointers is exactly the order of most
recent touch per node (most recently touched last), the cache size is the
number of distinct touched nodes, and `numPoints` is the sum of their
point counts; (2) `touch` of an unloaded node is a no-op; (3) `touch` of
an already-present node keeps `numPoints` unchanged and moves the node to
the most-recent position. -/
theorem claim_C5_touch_sequences {β V K : Type} :
    (∀ (budget : ℤ) (seq : List (PCNode β V K)),
      (∀ x ∈ seq, x.loaded = true) →
      (∀ a ∈ seq, ∀ b ∈ seq, a.id = b.id → a = b) →
      ((seq.foldl (fun acc x => acc.touch x)
          ({ pointBudget := budget } : LRU β V K)).orderIds
        = (touchOrder seq).map PCNode.id ∧
      (seq.foldl (fun acc x => acc.touch x)
          ({ pointBudget := budget } : LRU β V K)).items.length
        = (touchOrder seq).length ∧
      (seq.foldl (fun acc x => acc.touch x)
          ({ pointBudget := budget } : LRU β V K)).numPoints
        = ((touchOrder seq).map fun x => (x.data.numPoints : ℤ)).sum)) ∧
    (∀ (lru : LRU β V K) (n : PCNode β V K), n.loaded = false → lru.touch n = lru) ∧
    (∀ (lru : LRU β V K) (l : List (PCNode β V K)) (n : PCNode β V K),
      lru.rep l → n ∈ l → n.loaded = true → (∀ m ∈ l, m.id = n.id → m = n) →
      (lru.touch n).numPoints = lru.numPoints ∧
      (lru.touch n).orderIds = (upsert l n).map PCNode.id) := by
  refine ⟨?_, ?_, ?_⟩
  · intro budget seq hld hcons
    have hrep := rep_touch_fold seq (rep_init budget) hld hcons (by simp)
    rw [touchOrder]
    exact ⟨orderIds_of_rep hrep, (hrep.2.2.1).symm ▸ rfl, hrep.2.2.2.2.2.2⟩
  · intro lru n h
    exact touch_not_loaded h
  · intro lru l n h hn hld hcons
    exact touch_numPoints_of_mem h hn hld hcons

theorem claim_C5_witness :
    (∀ x ∈ [nodeT1, nodeT2, nodeT1], PCNode.loaded x = true) ∧
    (([nodeT1, nodeT2, nodeT1].foldl (fun acc x => acc.touch x)
        ({ pointBudget := 100 } : LRU Unit Unit ℚ)).orderIds = [42, 41] ∧
      ([nodeT1, nodeT2, nodeT1].foldl (fun acc x => acc.touch x)
        ({ pointBudget := 100 } : LRU Unit Unit ℚ)).items.length = 2 ∧
      ([nodeT1, nodeT2, nodeT1].foldl (fun acc x => acc.touch x)
        ({ pointBudget := 100 } : LRU Unit Unit ℚ)).numPoints = 16) := by
  have hcons : ∀ a ∈ [nodeT1, nodeT2, nodeT1], ∀ b ∈ [nodeT1, nodeT2, nodeT1],
      PCNode.id a = PCNode.id b → a = b := by
    intro a ha b hb heq
    rcases List.mem_cons.mp ha with rfl | ha'
    · rcases List.mem_cons.mp hb with rfl | hb'
      · rfl
      · rcases List.mem_cons.mp hb' with rfl | hb''
        · exact absurd heq (by decide)
        · rcases List.mem_cons.mp hb'' with rfl | hb'''
          · rfl
          · simp at hb'''
    · rcases List.mem_cons.mp ha' with rfl | ha''
      · rcases List.mem_cons.mp hb with rfl | hb'
        · exact absurd heq (by decide)
        · rcases List.mem_cons.mp hb' with rfl | hb''
          · rfl
          · rcases List.mem_cons.mp hb'' with rfl | hb'''
            · exact absurd heq (by decide)
            · simp at hb'''
      · rcases List.mem_cons.mp ha'' with rfl | ha'''
        · rcases List.mem_cons.mp hb with rfl | hb'
          · rfl
          · rcases List.mem_cons.mp hb' with rfl | hb''
            · exact absurd heq (by decide)
            · rcases List.mem_cons.mp hb'' with rfl | hb'''
              · rfl
              · simp at hb'''
        · simp at ha'''
  have happ := (claim_C5_touch_sequences (β := Unit) (V := Unit) (K := ℚ)).1 100
    [nodeT1, nodeT2, nodeT1] (by decide) hcons
  refine ⟨by decide, ?_, ?_, ?_⟩
  · rw [happ.1]
    decide
  · rw [happ.2.1]
    decide
  · rw [happ.2.2]
    decide

/-! ### Structural lemmas for the scheduler -/

section SchedulerBasic

variable {β V K : Type} [Inhabited β] [Inhabited V] [LinearOrderedField K]

theorem toTreeNode_id (n : PCNode β V K) : (toTreeNode n).id = n.id := by
  cases n
  rfl

theorem toTreeNode_children (n : PCNode β V K) : (toTreeNode n).children = n.children := by
  cases n
  rfl

theorem toTreeNode_boundingBox (n : PCNode β V K) :
    (toTreeNode n).boundingBox = n.boundingBox := by
  cases n
  rfl

theorem toTreeNode_numPoints (n : PCNode β V K) :
    (toTreeNode n).numPoints = n.numPoints := by
  cases n
  rfl

theorem geometryNode_boundingBox (n : PCNode β V K) :
    n.geometryNode.boundingBox = n.boundingBox := by
  cases n
  rfl

theorem updateCloud_getElem? (cs : List (PointCloudM β V K)) (i : ℕ)
    (f : PointCloudM β V K → PointCloudM β V K) (j : ℕ) :
    (updateCloud cs i f)[j]? = if j = i then cs[j]?.map f else cs[j]? := by
  induction cs generalizing i j with
  | nil => simp [updateCloud]
  | cons pc rest ih =>
    cases i with
    | zero =>
      cases j with
      | zero => simp [updateCloud]
      | succ j' => simp [updateCloud, Nat.succ_ne_zero]
    | succ i' =>
      cases j with
      | zero => simp [updateCloud, (Nat.succ_ne_zero i').symm]
      | succ j' => simpa [updateCloud, Nat.succ_inj] using ih i' j'

theorem descendants_go_mem {c : PCNode β V K} :
    ∀ {cs : List (Option (PCNode β V K))}, some c ∈ cs →
      ∀ x, (x = c ∨ x ∈ c.descendants) → x ∈ PCNode.descendants.go cs := by
  intro cs
  induction cs with
  | nil => intro h; simp at h
  | cons o rest ih =>
    intro h x hx
    rcases List.mem_cons.mp h with rfl | h'
    · show x ∈ (c :: c.descendants) ++ PCNode.descendants.go rest
      rcases hx with rfl | hx
      · exact List.mem_append_left _ (List.mem_cons_self _ _)
      · exact List.mem_append_left _ (List.mem_cons_of_mem _ hx)
    · cases o with
      | none => exact ih h' x hx
      | some c' =>
        show x ∈ (c' :: c'.descendants) ++ PCNode.descendants.go rest
        exact List.mem_append_right _ (ih h' x hx)

theorem subtreeIds_child_subset {c n : PCNode β V K} (hc : some c ∈ n.children) :
    ∀ k ∈ c.subtreeIds, k ∈ n.subtreeIds := by
  intro k hk
  cases n with
  | mk d cs =>
    have hcs : some c ∈ cs := hc
    have hdesc : ∀ x, (x = c ∨ x ∈ c.descendants) → x ∈ PCNode.descendants (.mk d cs) := by
      intro x hx
      show x ∈ PCNode.descendants.go cs
      exact descendants_go_mem hcs x hx
    rcases List.mem_cons.mp hk with rfl | hk'
    · exact List.mem_cons_of_mem _ (List.mem_map_of_mem _ (hdesc c (Or.inl rfl)))
    · rcases List.mem_map.mp hk' with ⟨m, hm, rfl⟩
      exact List.mem_cons_of_mem _ (List.mem_map_of_mem _ (hdesc m (Or.inr hm)))

theorem self_mem_subtreeIds (n : PCNode β V K) : n.id ∈ n.subtreeIds :=
  List.mem_cons_self _ _

theorem popMax_mem :
    ∀ {q : List (QueueItem β V K)} {x rest}, popMax q = some (x, rest) →
      x ∈ q ∧ ∀ y ∈ rest, y ∈ q := by
  intro q
  induction q with
  | nil => intro x rest h; simp [popMax] at h
  | cons a q' ih =>
    intro x rest h
    simp only [popMax] at h
    cases hp : popMax q' with
    | none =>
      rw [hp] at h
      cases h
      exact ⟨List.mem_cons_self _ _, by intro y hy; simp at hy⟩
    | some p =>
      obtain ⟨y, rest'⟩ := p
      rw [hp] at h
      obtain ⟨hy, hrest⟩ := ih hp
      have h' : (if a.weight < y.weight then some (y, a :: rest')
          else some (a, q')) = some (x, rest) := h
      by_cases hw : a.weight < y.weight
      · rw [if_pos hw] at h'
        cases h'
        refine ⟨List.mem_cons_of_mem _ hy, ?_⟩
        intro z hz
        rcases List.mem_cons.mp hz with rfl | hz'
        · exact List.mem_cons_self _ _
        · exact List.mem_cons_of_mem _ (hrest z hz')
      · rw [if_neg hw] at h'
        cases h'
        exact ⟨List.mem_cons_self _ _, fun z hz => List.mem_cons_of_mem _ hz⟩

end SchedulerBasic

section ChildExpansion

variable {β V K : Type} [Inhabited β] [Inhabited V] [LinearOrderedField K]

theorem updateChildVisibility_eq_spec (env : Env β V K) (camera : CameraM K)
    (halfHeight : K) (queueItem : QueueItem β V K)
    (priorityQueue : List (QueueItem β V K)) (pointCloud : PointCloudM β V K)
    (node : PCNode β V K) (cameraPosition : V) :
    Potree.updateChildVisibility env camera halfHeight queueItem priorityQueue
        pointCloud node cameraPosition =
      priorityQueue ++ node.children.filterMap
        (specChildItem env camera halfHeight pointCloud queueItem.pointCloudIndex
          cameraPosition node) := by
  unfold Potree.updateChildVisibility
  generalize node.children = cs
  induction cs generalizing priorityQueue with
  | nil => simp
  | cons child rest ih =>
    cases child with
    | none =>
      simp only [List.foldl_cons, List.filterMap_cons]
      exact ih priorityQueue
    | some c =>
      simp only [List.foldl_cons, List.filterMap_cons]
      have hspr : c.data.sphereRadius *
          (if camera.kind = CameraKind.perspective then
            halfHeight / (env.tan (camera.fov * env.pi / 180 / 2) *
              env.distTo c.data.sphereCenter cameraPosition)
          else (2 * halfHeight) / (camera.top - camera.bottom)) =
          specProjectedRadius env camera halfHeight
            (env.distTo c.data.sphereCenter cameraPosition) c.data.sphereRadius := by
        unfold specProjectedRadius
        split_ifs with h
        · exact (mul_div_assoc _ _ _).symm
        · exact (mul_div_assoc _ _ _).symm
      simp only [specChildItem, hspr]
      by_cases hlt : specProjectedRadius env camera halfHeight
          (env.distTo c.data.sphereCenter cameraPosition) c.data.sphereRadius <
          pointCloud.minNodePixelSize
      · rw [if_pos hlt, if_pos hlt]
        exact ih priorityQueue
      · rw [if_neg hlt, if_neg hlt]
        rw [ih]
        simp only [specWeight, hspr]
        simp
end ChildExpansion

section CloudEvolve

variable {β V K : Type} [Inhabited β] [Inhabited V] [LinearOrderedField K]

theorem specChildItem_some {env : Env β V K} {camera : CameraM K} {halfHeight : K}
    {pc : PointCloudM β V K} {idx : ℕ} {campos : V} {parent : PCNode β V K}
    {o : Option (PCNode β V K)} {it : QueueItem β V K}
    (h : specChildItem env camera halfHeight pc idx campos parent o = some it) :
    ∃ c, o = some c ∧ it.node = c ∧ it.parent = some parent ∧ it.pointCloudIndex = idx := by
  cases o with
  | none => simp [specChildItem] at h
  | some c =>
    simp only [specChildItem] at h
    split_ifs at h
    cases h
    exact ⟨c, rfl, rfl, rfl, rfl⟩

theorem updateChildVisibility_mem {env : Env β V K} {camera : CameraM K} {halfHeight : K}
    {qi : QueueItem β V K} {pq : List (QueueItem β V K)} {pc : PointCloudM β V K}
    {node : PCNode β V K} {campos : V} {it : QueueItem β V K}
    (hit : it ∈ Potree.updateChildVisibility env camera halfHeight qi pq pc node campos) :
    it ∈ pq ∨ ∃ c, some c ∈ node.children ∧ it.node = c := by
  rw [updateChildVisibility_eq_spec] at hit
  rcases List.mem_append.mp hit with h | h
  · exact Or.inl h
  · right
    rcases List.mem_filterMap.mp h with ⟨o, ho, hspec⟩
    obtain ⟨c, rfl, hnode, _, _⟩ := specChildItem_some hspec
    exact ⟨c, ho, hnode⟩

theorem cloudEvolve_refl (idx : ℕ) (b : β) (cs : List (PointCloudM β V K)) :
    cloudEvolve idx b cs cs :=
  fun _ pc' h => ⟨pc', h, rfl, fun _ hm => Or.inl hm, fun _ hm => Or.inl hm⟩

theorem cloudEvolve_trans {idx : ℕ} {b : β} {cs cs' cs'' : List (PointCloudM β V K)}
    (h1 : cloudEvolve idx b cs cs') (h2 : cloudEvolve idx b cs' cs'') :
    cloudEvolve idx b cs cs'' := by
  intro j pc2 h
  obtain ⟨pc1, hpc1, hf1, hv1, hg1⟩ := h2 j pc2 h
  obtain ⟨pc0, hpc0, hf0, hv0, hg0⟩ := h1 j pc1 hpc1
  refine ⟨pc0, hpc0, hf1.trans hf0, ?_, ?_⟩
  · intro m hm
    rcases hv1 m hm with hm' | hj
    · exact hv0 m hm'
    · exact Or.inr hj
  · intro m hm
    rcases hg1 m hm with hm' | hj
    · exact hg0 m hm'
    · exact Or.inr hj

theorem cloudEvolve_updateCloud {idx : ℕ} {b : β} {cs : List (PointCloudM β V K)}
    {f : PointCloudM β V K → PointCloudM β V K}
    (hf : ∀ pc, cs[idx]? = some pc → (f pc).frustum = pc.frustum ∧
      (∀ m ∈ (f pc).visibleNodes, m ∈ pc.visibleNodes ∨ m.boundingBox = b) ∧
      (∀ m ∈ (f pc).visibleGeometry, m ∈ pc.visibleGeometry ∨ m.boundingBox = b)) :
    cloudEvolve idx b cs (updateCloud cs idx f) := by
  intro j pc' h
  rw [updateCloud_getElem?] at h
  by_cases hj : j = idx
  · rw [if_pos hj] at h
    cases hcs : cs[j]? with
    | none => rw [hcs] at h; simp at h
    | some pc =>
      rw [hcs] at h
      have hfp : f pc = pc' := by
        simpa using h
      subst hj
      subst hfp
      obtain ⟨hfr, hv, hg⟩ := hf pc hcs
      refine ⟨pc, rfl, hfr, ?_, ?_⟩
      · intro m hm
        rcases hv m hm with hm' | hb
        · exact Or.inl hm'
        · exact Or.inr ⟨rfl, hb⟩
      · intro m hm
        rcases hg m hm with hm' | hb
        · exact Or.inl hm'
        · exact Or.inr ⟨rfl, hb⟩
  · rw [if_neg hj] at h
    exact ⟨pc', h, rfl, fun m hm => Or.inl hm, fun m hm => Or.inl hm⟩

theorem cloudsSafe_evolve {frustums : List (β → Bool)} {cs cs' : List (PointCloudM β V K)}
    {idx : ℕ} {b : β} (hsafe : cloudsSafe frustums cs)
    (hfr : ∀ pc, cs[idx]? = some pc → pc.frustum b = true)
    (hev : cloudEvolve idx b cs cs') : cloudsSafe frustums cs' := by
  intro j pc' h
  obtain ⟨pc, hpc, hf, hv, hg⟩ := hev j pc' h
  obtain ⟨hfj, hvn, hvg⟩ := hsafe j pc hpc
  refine ⟨by rw [hf]; exact hfj, ?_, ?_⟩
  · intro m hm
    rcases hv m hm with hm' | ⟨rfl, hb⟩
    · rw [hf]; exact hvn m hm'
    · rw [hf, hb]; exact hfr pc hpc
  · intro m hm
    rcases hg m hm with hm' | ⟨rfl, hb⟩
    · rw [hf]; exact hvg m hm'
    · rw [hf, hb]; exact hfr pc hpc

theorem getD_of_getElem? {cs : List (PointCloudM β V K)} {i : ℕ} {pc d : PointCloudM β V K}
    (h : cs[i]? = some pc) : cs.getD i d = pc := by
  rw [List.getD_eq_getElem?_getD, h]
  rfl

end CloudEvolve

section VisitNode

variable {β V K : Type} [Inhabited β] [Inhabited V] [LinearOrderedField K]

theorem visitNode_effects (env : Env β V K) (camera : CameraM K) (halfHeight : K)
    (cameraPositions : List V) (st : TravState β V K) (qi : QueueItem β V K)
    (node : PCNode β V K) :
    (Potree.visitNode env camera halfHeight cameraPositions st qi node).numVisiblePoints
        = st.numVisiblePoints ∧
    (Potree.visitNode env camera halfHeight cameraPositions st qi node).unloadedGeometry
        = st.unloadedGeometry ∧
    (Potree.visitNode env camera halfHeight cameraPositions st qi node).loadedToGPUThisFrame
        = st.loadedToGPUThisFrame ∧
    (Potree.visitNode env camera halfHeight cameraPositions st qi node).exceededMaxLoadsToGPU
        = st.exceededMaxLoadsToGPU ∧
    (Potree.visitNode env camera halfHeight cameraPositions st qi node).nodeLoadFailed
        = st.nodeLoadFailed ∧
    (Potree.visitNode env camera halfHeight cameraPositions st qi node).promoted
        = st.promoted ∧
    (∀ m ∈ (Potree.visitNode env camera halfHeight cameraPositions st qi node).visibleNodes,
        m ∈ st.visibleNodes ∨ m = node) ∧
    (∀ it ∈ (Potree.visitNode env camera halfHeight cameraPositions st qi node).queue,
        it ∈ st.queue ∨ ∃ c, some c ∈ node.children ∧ it.node = c) ∧
    cloudEvolve qi.pointCloudIndex node.boundingBox st.pointClouds
      (Potree.visitNode env camera halfHeight cameraPositions st qi node).pointClouds := by
  unfold Potree.visitNode
  cases hit : isTreeNode (some node) with
  | false =>
    simp only [hit, Bool.false_eq_true, if_false]
    refine ⟨trivial, trivial, trivial, trivial, trivial, trivial, ?_, ?_, ?_⟩
    · intro m hm
      exact Or.inl hm
    · intro it hiq
      exact updateChildVisibility_mem hiq
    · exact cloudEvolve_refl _ _ _
  | true =>
    simp only [hit, if_true, Potree.updateTreeNodeVisibility]
    refine ⟨trivial, trivial, trivial, trivial, trivial, trivial, ?_, ?_, ?_⟩
    · intro m hm
      rcases List.mem_append.mp hm with h | h
      · exact Or.inl h
      · exact Or.inr (List.mem_singleton.mp h)
    · intro it hiq
      rcases updateChildVisibility_mem hiq with h | h
      · exact Or.inl h
      · exact Or.inr h
    · apply cloudEvolve_updateCloud
      intro pc hpc
      rw [getD_of_getElem? hpc]
      refine ⟨rfl, ?_, ?_⟩
      · intro m hm
        rcases List.mem_append.mp hm with h | h
        · exact Or.inl h
        · rw [List.mem_singleton.mp h]
          exact Or.inr rfl
      · intro m hm
        rcases List.mem_append.mp hm with h | h
        · exact Or.inl h
        · rw [List.mem_singleton.mp h]
          exact Or.inr (geometryNode_boundingBox node)

end VisitNode

section ProcessItem

variable {β V K : Type} [Inhabited β] [Inhabited V] [LinearOrderedField K]

theorem getD_of_getElem?' {α : Type _} {l : List α} {i : ℕ} {x : α} (d : α)
    (h : l[i]? = some x) : l.getD i d = x := by
  rw [List.getD_eq_getElem?_getD, h]
  rfl

/-- Effects of a loop-body tail `(visitNode env camera halfHeight
cameraPositions st' qi node', false)` relative to the state `st` the
iteration started from, given how the accept step built `st'`. -/
theorem processVisit_effects (env : Env β V K) (camera : CameraM K) (halfHeight : K)
    (maxLoadsToGPU : ℕ) (pointBudget : ℤ) (frustums : List (β → Bool))
    (cameraPositions : List V) (st : TravState β V K) (qi : QueueItem β V K)
    (rest : List (QueueItem β V K)) (st' : TravState β V K) (node' : PCNode β V K)
    (hvis : st'.visibleNodes = st.visibleNodes)
    (hug : st'.unloadedGeometry = st.unloadedGeometry ∨
      st'.unloadedGeometry = st.unloadedGeometry ++ [qi.node])
    (hq : st'.queue = rest)
    (hnf : st'.nodeLoadFailed = st.nodeLoadFailed)
    (hnvp : st'.numVisiblePoints = st.numVisiblePoints + qi.node.numPoints)
    (hid : node'.id = qi.node.id) (hbox : node'.boundingBox = qi.node.boundingBox)
    (hch : node'.children = qi.node.children)
    (hgpu : (st'.loadedToGPUThisFrame = st.loadedToGPUThisFrame ∧ st'.promoted = st.promoted) ∨
      (st'.loadedToGPUThisFrame = st.loadedToGPUThisFrame + 1 ∧
        st'.promoted = st.promoted ++ [node'] ∧ st.loadedToGPUThisFrame < maxLoadsToGPU))
    (hev : cloudEvolve qi.pointCloudIndex qi.node.boundingBox st.pointClouds st'.pointClouds) :
    (∀ m ∈ (Potree.visitNode env camera halfHeight cameraPositions st' qi node').visibleNodes,
        m ∈ st.visibleNodes ∨ (m.id = qi.node.id ∧ m.boundingBox = qi.node.boundingBox)) ∧
    (∀ m ∈ (Potree.visitNode env camera halfHeight cameraPositions st' qi node').unloadedGeometry,
        m ∈ st.unloadedGeometry ∨ m.id = qi.node.id) ∧
    (∀ it ∈ (Potree.visitNode env camera halfHeight cameraPositions st' qi node').queue,
        it ∈ rest ∨ ∃ c, some c ∈ qi.node.children ∧ it.node = c) ∧
    (st.nodeLoadFailed = true →
      (Potree.visitNode env camera halfHeight cameraPositions st' qi node').nodeLoadFailed = true) ∧
    (¬ ((st.numVisiblePoints + qi.node.numPoints : ℕ) : ℤ) > pointBudget →
      ((Potree.visitNode env camera halfHeight cameraPositions st' qi node').numVisiblePoints : ℤ)
        ≤ pointBudget) ∧
    (st.promoted.length = st.loadedToGPUThisFrame →
      (Potree.visitNode env camera halfHeight cameraPositions st' qi node').promoted.length =
        (Potree.visitNode env camera halfHeight cameraPositions st' qi node').loadedToGPUThisFrame ∧
      (st.loadedToGPUThisFrame ≤ maxLoadsToGPU →
        (Potree.visitNode env camera halfHeight cameraPositions st' qi node').loadedToGPUThisFrame
          ≤ maxLoadsToGPU)) ∧
    (cloudsSafe frustums st.pointClouds →
      (∀ pcx, st.pointClouds[qi.pointCloudIndex]? = some pcx →
        pcx.frustum qi.node.boundingBox = true) →
      cloudsSafe frustums
        (Potree.visitNode env camera halfHeight cameraPositions st' qi node').pointClouds) := by
  obtain ⟨e1, e2, e3, e4, e5, e6, e7, e8, e9⟩ :=
    visitNode_effects env camera halfHeight cameraPositions st' qi node'
  refine ⟨?_, ?_, ?_, ?_, ?_, ?_, ?_⟩
  · intro m hm
    rcases e7 m hm with h | rfl
    · rw [hvis] at h
      exact Or.inl h
    · exact Or.inr ⟨hid, hbox⟩
  · intro m hm
    rw [e2] at hm
    rcases hug with h | h
    · rw [h] at hm
      exact Or.inl hm
    · rw [h] at hm
      rcases List.mem_append.mp hm with h' | h'
      · exact Or.inl h'
      · rw [List.mem_singleton.mp h']
        exact Or.inr rfl
  · intro it hiq
    rcases e8 it hiq with h | ⟨c, hc, hn⟩
    · rw [hq] at h
      exact Or.inl h
    · rw [hch] at hc
      exact Or.inr ⟨c, hc, hn⟩
  · intro h
    rw [e5, hnf]
    exact h
  · intro h
    rw [e1, hnvp]
    exact_mod_cast not_lt.mp h
  · intro h
    rcases hgpu with ⟨h1, h2⟩ | ⟨h1, h2, h3⟩
    · rw [e3, e6, h1, h2]
      exact ⟨h, fun hle => h1 ▸ hle⟩
    · rw [e3, e6, h1, h2]
      constructor
      · rw [List.length_append, h]
        rfl
      · intro _
        exact h3
  · intro hsafe hacc
    have hev2 : cloudEvolve qi.pointCloudIndex qi.node.boundingBox st.pointClouds
        (Potree.visitNode env camera halfHeight cameraPositions st' qi node').pointClouds := by
      refine cloudEvolve_trans hev ?_
      rw [← hbox]
      exact e9
    exact cloudsSafe_evolve hsafe hacc hev2

end ProcessItem

section ProcessItemMain

variable {β V K : Type} [Inhabited β] [Inhabited V] [LinearOrderedField K]

theorem frustum_of_not_rej {a c t : Bool} (h : ¬ (a || !t || c) = true) : t = true := by
  cases t
  · exact absurd (by simp) h
  · rfl

theorem frustAccept {frustums : List (β → Bool)} {cs : List (PointCloudM β V K)}
    {idx : ℕ} {b : β} (hsafe : cloudsSafe frustums cs)
    (hfr : (frustums.getD idx (fun _ => false)) b = true) :
    ∀ pcx, cs[idx]? = some pcx → pcx.frustum b = true := by
  intro pcx hpcx
  obtain ⟨hfj, -, -⟩ := hsafe _ _ hpcx
  rw [getD_of_getElem?' _ hfj] at hfr
  exact hfr

theorem processItem_effects (env : Env β V K) (camera : CameraM K) (halfHeight : K)
    (maxLoadsToGPU : ℕ) (pointBudget : ℤ) (frustums : List (β → Bool))
    (cameraPositions : List V) (st : TravState β V K) (qi : QueueItem β V K)
    (rest : List (QueueItem β V K)) :
    (∀ m ∈ (Potree.processItem env camera halfHeight maxLoadsToGPU pointBudget frustums
        cameraPositions st qi rest).1.visibleNodes,
      m ∈ st.visibleNodes ∨ (m.id = qi.node.id ∧ m.boundingBox = qi.node.boundingBox)) ∧
    (∀ m ∈ (Potree.processItem env camera halfHeight maxLoadsToGPU pointBudget frustums
        cameraPositions st qi rest).1.unloadedGeometry,
      m ∈ st.unloadedGeometry ∨ m.id = qi.node.id) ∧
    (∀ it ∈ (Potree.processItem env camera halfHeight maxLoadsToGPU pointBudget frustums
        cameraPositions st qi rest).1.queue,
      it ∈ rest ∨ ∃ c, some c ∈ qi.node.children ∧ it.node = c) ∧
    (st.nodeLoadFailed = true → (Potree.processItem env camera halfHeight maxLoadsToGPU
        pointBudget frustums cameraPositions st qi rest).1.nodeLoadFailed = true) ∧
    ((st.numVisiblePoints : ℤ) ≤ pointBudget →
      ((Potree.processItem env camera halfHeight maxLoadsToGPU pointBudget frustums
        cameraPositions st qi rest).1.numVisiblePoints : ℤ) ≤ pointBudget) ∧
    (st.promoted.length = st.loadedToGPUThisFrame →
      ((Potree.processItem env camera halfHeight maxLoadsToGPU pointBudget frustums
          cameraPositions st qi rest).1.promoted.length =
        (Potree.processItem env camera halfHeight maxLoadsToGPU pointBudget frustums
          cameraPositions st qi rest).1.loadedToGPUThisFrame ∧
      (st.loadedToGPUThisFrame ≤ maxLoadsToGPU →
        (Potree.processItem env camera halfHeight maxLoadsToGPU pointBudget frustums
          cameraPositions st qi rest).1.loadedToGPUThisFrame ≤ maxLoadsToGPU))) ∧
    (cloudsSafe frustums st.pointClouds →
      cloudsSafe frustums (Potree.processItem env camera halfHeight maxLoadsToGPU pointBudget
        frustums cameraPositions st qi rest).1.pointClouds) := by
  have hev1 : cloudEvolve qi.pointCloudIndex qi.node.boundingBox st.pointClouds
      (updateCloud st.pointClouds qi.pointCloudIndex
        (fun pc => { pc with numVisiblePoints := pc.numVisiblePoints + qi.node.numPoints })) :=
    cloudEvolve_updateCloud (fun _ _ => ⟨rfl, fun _ hm => Or.inl hm, fun _ hm => Or.inl hm⟩)
  have hev2 : cloudEvolve qi.pointCloudIndex qi.node.boundingBox st.pointClouds
      (updateCloud (updateCloud st.pointClouds qi.pointCloudIndex
        (fun pc => { pc with numVisiblePoints := pc.numVisiblePoints + qi.node.numPoints }))
        qi.pointCloudIndex
        (fun pc => { pc with visibleGeometry := pc.visibleGeometry ++ [qi.node] })) := by
    refine cloudEvolve_trans hev1 (cloudEvolve_updateCloud ?_)
    intro pc _
    refine ⟨rfl, fun _ hm => Or.inl hm, ?_⟩
    intro m hm
    rcases List.mem_append.mp hm with h | h
    · exact Or.inl h
    · rw [List.mem_singleton.mp h]
      exact Or.inr rfl
  simp only [Potree.processItem]
  split_ifs with hbud hrej hgeo hpl hnf2 hexg
  · exact ⟨fun _ hm => Or.inl hm, fun _ hm => Or.inl hm, fun _ hit => Or.inl hit,
      fun h => h, fun h => h, fun h => ⟨h, fun hle => hle⟩, fun h => h⟩
  · exact ⟨fun _ hm => Or.inl hm, fun _ hm => Or.inl hm, fun _ hit => Or.inl hit,
      fun h => h, fun h => h, fun h => ⟨h, fun hle => hle⟩, fun h => h⟩
  · -- promoted to a tree node
    have hlt : st.loadedToGPUThisFrame < maxLoadsToGPU := by
      have h2 := (Bool.and_eq_true _ _).mp hpl
      exact of_decide_eq_true h2.2
    have hfrust := frustum_of_not_rej hrej
    obtain ⟨c1, c2, c3, c4, c5, c6, c7⟩ := processVisit_effects env camera halfHeight
      maxLoadsToGPU pointBudget frustums cameraPositions st qi rest
      { st with
        numVisiblePoints := st.numVisiblePoints + qi.node.numPoints
        loadedToGPUThisFrame := st.loadedToGPUThisFrame + 1
        queue := rest
        pointClouds := updateCloud st.pointClouds qi.pointCloudIndex
          (fun pc => { pc with numVisiblePoints := pc.numVisiblePoints + qi.node.numPoints })
        promoted := st.promoted ++ [toTreeNode qi.node] }
      (toTreeNode qi.node)
      rfl (Or.inl rfl) rfl rfl rfl (toTreeNode_id _) (toTreeNode_boundingBox _)
      (toTreeNode_children _) (Or.inr ⟨rfl, rfl, hlt⟩) hev1
    exact ⟨c1, c2, c3, c4, fun _ => c5 hbud, c6,
      fun hs => c7 hs (frustAccept hs hfrust)⟩
  · -- unloaded geometry, concurrency cap already hit
    have hfrust := frustum_of_not_rej hrej
    obtain ⟨c1, c2, c3, c4, c5, c6, c7⟩ := processVisit_effects env camera halfHeight
      maxLoadsToGPU pointBudget frustums cameraPositions st qi rest
      { st with
        numVisiblePoints := st.numVisiblePoints + qi.node.numPoints
        exceededMaxLoadsToGPU := true
        unloadedGeometry := st.unloadedGeometry ++ [qi.node]
        queue := rest
        pointClouds := updateCloud (updateCloud st.pointClouds qi.pointCloudIndex
          (fun pc => { pc with numVisiblePoints := pc.numVisiblePoints + qi.node.numPoints }))
          qi.pointCloudIndex
          (fun pc => { pc with visibleGeometry := pc.visibleGeometry ++ [qi.node] }) }
      qi.node
      rfl (Or.inr rfl) rfl rfl rfl rfl rfl rfl (Or.inl ⟨rfl, rfl⟩) hev2
    exact ⟨c1, c2, c3, c4, fun _ => c5 hbud, c6,
      fun hs => c7 hs (frustAccept hs hfrust)⟩
  · -- unloaded geometry
    have hfrust := frustum_of_not_rej hrej
    obtain ⟨c1, c2, c3, c4, c5, c6, c7⟩ := processVisit_effects env camera halfHeight
      maxLoadsToGPU pointBudget frustums cameraPositions st qi rest
      { st with
        numVisiblePoints := st.numVisiblePoints + qi.node.numPoints
        unloadedGeometry := st.unloadedGeometry ++ [qi.node]
        queue := rest
        pointClouds := updateCloud (updateCloud st.pointClouds qi.pointCloudIndex
          (fun pc => { pc with numVisiblePoints := pc.numVisiblePoints + qi.node.numPoints }))
          qi.pointCloudIndex
          (fun pc => { pc with visibleGeometry := pc.visibleGeometry ++ [qi.node] }) }
      qi.node
      rfl (Or.inr rfl) rfl rfl rfl rfl rfl rfl (Or.inl ⟨rfl, rfl⟩) hev2
    exact ⟨c1, c2, c3, c4, fun _ => c5 hbud, c6,
      fun hs => c7 hs (frustAccept hs hfrust)⟩
  · -- failed geometry node: skipped
    have hfrust := frustum_of_not_rej hrej
    exact ⟨fun _ hm => Or.inl hm, fun _ hm => Or.inl hm, fun _ hit => Or.inl hit,
      fun _ => rfl, fun _ => by exact_mod_cast not_lt.mp hbud,
      fun h => ⟨h, fun hle => hle⟩,
      fun hs => cloudsSafe_evolve hs (frustAccept hs hfrust) hev1⟩
  · -- already a tree node (or parent not renderable)
    have hfrust := frustum_of_not_rej hrej
    obtain ⟨c1, c2, c3, c4, c5, c6, c7⟩ := processVisit_effects env camera halfHeight
      maxLoadsToGPU pointBudget frustums cameraPositions st qi rest
      { st with
        numVisiblePoints := st.numVisiblePoints + qi.node.numPoints
        queue := rest
        pointClouds := updateCloud st.pointClouds qi.pointCloudIndex
          (fun pc => { pc with numVisiblePoints := pc.numVisiblePoints + qi.node.numPoints }) }
      qi.node
      rfl (Or.inl rfl) rfl rfl rfl rfl rfl rfl (Or.inl ⟨rfl, rfl⟩) hev1
    exact ⟨c1, c2, c3, c4, fun _ => c5 hbud, c6,
      fun hs => c7 hs (frustAccept hs hfrust)⟩

end ProcessItemMain

section LoopLemmas

variable {β V K : Type} [Inhabited β] [Inhabited V] [LinearOrderedField K]

theorem processItem_failed_eq (env : Env β V K) (camera : CameraM K) (halfHeight : K)
    (maxLoadsToGPU : ℕ) (pointBudget : ℤ) (frustums : List (β → Bool))
    (cameraPositions : List V) (st : TravState β V K) (qi : QueueItem β V K)
    (rest : List (QueueItem β V K))
    (hbud : ¬ ((st.numVisiblePoints + qi.node.numPoints : ℕ) : ℤ) > pointBudget)
    (hB : (Potree.levelTooDeep (st.pointClouds.getD qi.pointCloudIndex (defaultCloud β V K))
        qi.node
      || !((frustums.getD qi.pointCloudIndex (fun _ => false)) qi.node.boundingBox)
      || Potree.shouldClip env (st.pointClouds.getD qi.pointCloudIndex (defaultCloud β V K))
        qi.node.boundingBox) = false)
    (hgeo : (isGeometryNode qi.node && (qi.parent.isNone || isTreeNode qi.parent)) = true)
    (hload : qi.node.loaded = false)
    (hfail : qi.node.failed = true) :
    Potree.processItem env camera halfHeight maxLoadsToGPU pointBudget frustums
        cameraPositions st qi rest =
      ({ st with
          numVisiblePoints := st.numVisiblePoints + qi.node.numPoints
          pointClouds := updateCloud st.pointClouds qi.pointCloudIndex
            (fun pc => { pc with numVisiblePoints := pc.numVisiblePoints + qi.node.numPoints })
          queue := rest
          nodeLoadFailed := true }, false) := by
  simp only [Potree.processItem]
  split_ifs with h1 h2 h3 h4
  · rw [hB] at h1
    simp at h1
  · rw [hload] at h2
    simp at h2
  · rw [hfail] at h3
    simp at h3
  · rw [hfail] at h3
    simp at h3
  · rfl

theorem travLoop_excludes (env : Env β V K) (camera : CameraM K) (halfHeight : K)
    (maxLoadsToGPU : ℕ) (pointBudget : ℤ) (frustums : List (β → Bool))
    (cameraPositions : List V) (S : List ℕ) :
    ∀ (fuel : ℕ) (st : TravState β V K),
      (∀ it ∈ st.queue, ∀ k ∈ it.node.subtreeIds, k ∉ S) →
      (∀ m ∈ st.visibleNodes, m.id ∉ S) →
      (∀ m ∈ st.unloadedGeometry, m.id ∉ S) →
      st.nodeLoadFailed = true →
      (∀ m ∈ (Potree.travLoop env camera halfHeight maxLoadsToGPU pointBudget frustums
          cameraPositions fuel st).visibleNodes, m.id ∉ S) ∧
      (∀ m ∈ (Potree.travLoop env camera halfHeight maxLoadsToGPU pointBudget frustums
          cameraPositions fuel st).unloadedGeometry, m.id ∉ S) ∧
      (Potree.travLoop env camera halfHeight maxLoadsToGPU pointBudget frustums
          cameraPositions fuel st).nodeLoadFailed = true := by
  intro fuel
  induction fuel with
  | zero =>
    intro st _ hv hu hf
    exact ⟨hv, hu, hf⟩
  | succ n ih =>
    intro st hq hv hu hf
    cases hp : popMax st.queue with
    | none =>
      simp only [Potree.travLoop, hp]
      exact ⟨hv, hu, hf⟩
    | some pr =>
      obtain ⟨qi, rest⟩ := pr
      obtain ⟨hqi, hrest⟩ := popMax_mem hp
      obtain ⟨e1, e2, e3, e4, -, -, -⟩ := processItem_effects env camera halfHeight
        maxLoadsToGPU pointBudget frustums cameraPositions st qi rest
      have hS : ∀ k ∈ qi.node.subtreeIds, k ∉ S := hq qi hqi
      have hv' : ∀ m ∈ (Potree.processItem env camera halfHeight maxLoadsToGPU pointBudget
          frustums cameraPositions st qi rest).1.visibleNodes, m.id ∉ S := by
        intro m hm
        rcases e1 m hm with h | ⟨hid, -⟩
        · exact hv m h
        · rw [hid]
          exact hS _ (self_mem_subtreeIds _)
      have hu' : ∀ m ∈ (Potree.processItem env camera halfHeight maxLoadsToGPU pointBudget
          frustums cameraPositions st qi rest).1.unloadedGeometry, m.id ∉ S := by
        intro m hm
        rcases e2 m hm with h | hid
        · exact hu m h
        · rw [hid]
          exact hS _ (self_mem_subtreeIds _)
      have hq' : ∀ it ∈ (Potree.processItem env camera halfHeight maxLoadsToGPU pointBudget
          frustums cameraPositions st qi rest).1.queue, ∀ k ∈ it.node.subtreeIds, k ∉ S := by
        intro it hit k hk
        rcases e3 it hit with h | ⟨c, hc, hn⟩
        · exact hq it (hrest it h) k hk
        · rw [hn] at hk
          exact hS k (subtreeIds_child_subset hc k hk)
      have hf' := e4 hf
      simp only [Potree.travLoop, hp]
      by_cases hb2 : (Potree.processItem env camera halfHeight maxLoadsToGPU pointBudget
          frustums cameraPositions st qi rest).2 = true
      · rw [if_pos hb2]
        exact ⟨hv', hu', hf'⟩
      · rw [if_neg hb2]
        exact ih _ hq' hv' hu' hf'

end LoopLemmas

section Claims

variable {β V K : Type} [Inhabited β] [Inhabited V] [LinearOrderedField K]

/-- C1: with a global point budget of 100 and the cloud rooted at node A
(60 points) with children B (50 points, high priority) and C (10 points,
low priority), all visible and loaded, `updateVisibility` accepts A and
then breaks the whole traversal when popping B (60 + 50 > 100): B and C
are never visited (no visible node, no per-cloud record, no unloaded
geometry beyond A's, and C is still queued), and the frame result reports
`numVisiblePoints = 60`. -/
theorem claim_C1_budget_cutoff :
    (Potree.updateVisibility envC1 camC1 1 2 potreeC1 [cloudC1]).1.numVisiblePoints = 60 ∧
    ((Potree.updateVisibility envC1 camC1 1 2 potreeC1 [cloudC1]).1.visibleNodes.map
      PCNode.id) = [1] ∧
    ((Potree.updateVisibility envC1 camC1 1 2 potreeC1 [cloudC1]).2.unloadedGeometry.map
      PCNode.id) = [] ∧
    ((Potree.updateVisibility envC1 camC1 1 2 potreeC1 [cloudC1]).2.pointClouds.map
      (fun pc => pc.visibleNodes.map PCNode.id)) = [[1]] ∧
    ((Potree.updateVisibility envC1 camC1 1 2 potreeC1 [cloudC1]).2.queue.map
      (fun it => it.node.id)) = [3] := by
  with_unfolding_all decide

/-- C9: a popped geometry node that passes the budget, level, frustum and
clip tests but is marked `failed` (its parent absent or a tree node; a
failed node is one whose load did not complete, so it is not loaded)
still adds its `numPoints` to both the global and the per-cloud
visible-point counters; the iteration then only sets `nodeLoadFailed`,
drops the node's subtree (queue moves on to `rest`) and records nothing
visible, so a permanently failed node keeps consuming point budget. -/
theorem claim_C9_failed_consumes_budget (env : Env β V K) (camera : CameraM K)
    (halfHeight : K) (maxLoadsToGPU : ℕ) (pointBudget : ℤ) (frustums : List (β → Bool))
    (cameraPositions : List V) (st : TravState β V K) (qi : QueueItem β V K)
    (rest : List (QueueItem β V K))
    (hbud : ¬ ((st.numVisiblePoints + qi.node.numPoints : ℕ) : ℤ) > pointBudget)
    (hB : (Potree.levelTooDeep (st.pointClouds.getD qi.pointCloudIndex (defaultCloud β V K))
        qi.node
      || !((frustums.getD qi.pointCloudIndex (fun _ => false)) qi.node.boundingBox)
      || Potree.shouldClip env (st.pointClouds.getD qi.pointCloudIndex (defaultCloud β V K))
        qi.node.boundingBox) = false)
    (hgeo : (isGeometryNode qi.node && (qi.parent.isNone || isTreeNode qi.parent)) = true)
    (hload : qi.node.loaded = false)
    (hfail : qi.node.failed = true) :
    (Potree.processItem env camera halfHeight maxLoadsToGPU pointBudget frustums
        cameraPositions st qi rest).1.numVisiblePoints
      = st.numVisiblePoints + qi.node.numPoints ∧
    (∀ pcx, st.pointClouds[qi.pointCloudIndex]? = some pcx →
      (Potree.processItem env camera halfHeight maxLoadsToGPU pointBudget frustums
          cameraPositions st qi rest).1.pointClouds[qi.pointCloudIndex]? =
        some { pcx with numVisiblePoints := pcx.numVisiblePoints + qi.node.numPoints }) ∧
    (Potree.processItem env camera halfHeight maxLoadsToGPU pointBudget frustums
        cameraPositions st qi rest).1.visibleNodes = st.visibleNodes ∧
    (Potree.processItem env camera halfHeight maxLoadsToGPU pointBudget frustums
        cameraPositions st qi rest).1.queue = rest ∧
    (Potree.processItem env camera halfHeight maxLoadsToGPU pointBudget frustums
        cameraPositions st qi rest).1.nodeLoadFailed = true ∧
    (Potree.processItem env camera halfHeight maxLoadsToGPU pointBudget frustums
        cameraPositions st qi rest).2 = false := by
  have heq := processItem_failed_eq env camera halfHeight maxLoadsToGPU pointBudget
    frustums cameraPositions st qi rest hbud hB hgeo hload hfail
  rw [heq]
  refine ⟨rfl, ?_, rfl, rfl, rfl, rfl⟩
  intro pcx hpcx
  rw [updateCloud_getElem?, if_pos rfl, hpcx]
  rfl

/-- C6: when the traversal pops a geometry node marked `failed` (parent
absent or a tree node, not loaded, passing the budget, level, frustum and
clip tests), the iteration pushes none of its children; for the rest of
the frame no node of its subtree ever enters the visible-node or
unloaded-geometry lists (so its load is never retried), and the frame
ends with `nodeLoadFailed = true`. -/
theorem claim_C6_failed_subtree_excluded (env : Env β V K) (camera : CameraM K)
    (halfHeight : K) (maxLoadsToGPU : ℕ) (pointBudget : ℤ) (frustums : List (β → Bool))
    (cameraPositions : List V) (fuel : ℕ) (st : TravState β V K) (qi : QueueItem β V K)
    (rest : List (QueueItem β V K))
    (hpop : popMax st.queue = some (qi, rest))
    (hbud : ¬ ((st.numVisiblePoints + qi.node.numPoints : ℕ) : ℤ) > pointBudget)
    (hB : (Potree.levelTooDeep (st.pointClouds.getD qi.pointCloudIndex (defaultCloud β V K))
        qi.node
      || !((frustums.getD qi.pointCloudIndex (fun _ => false)) qi.node.boundingBox)
      || Potree.shouldClip env (st.pointClouds.getD qi.pointCloudIndex (defaultCloud β V K))
        qi.node.boundingBox) = false)
    (hgeo : (isGeometryNode qi.node && (qi.parent.isNone || isTreeNode qi.parent)) = true)
    (hload : qi.node.loaded = false)
    (hfail : qi.node.failed = true)
    (hqd : ∀ it ∈ rest, ∀ k ∈ it.node.subtreeIds, k ∉ qi.node.subtreeIds)
    (hvd : ∀ m ∈ st.visibleNodes, m.id ∉ qi.node.subtreeIds)
    (hud : ∀ m ∈ st.unloadedGeometry, m.id ∉ qi.node.subtreeIds) :
    (Potree.processItem env camera halfHeight maxLoadsToGPU pointBudget frustums
        cameraPositions st qi rest).1.queue = rest ∧
    (∀ m ∈ (Potree.travLoop env camera halfHeight maxLoadsToGPU pointBudget frustums
        cameraPositions (fuel + 1) st).visibleNodes, m.id ∉ qi.node.subtreeIds) ∧
    (∀ m ∈ (Potree.travLoop env camera halfHeight maxLoadsToGPU pointBudget frustums
        cameraPositions (fuel + 1) st).unloadedGeometry, m.id ∉ qi.node.subtreeIds) ∧
    (Potree.travLoop env camera halfHeight maxLoadsToGPU pointBudget frustums
        cameraPositions (fuel + 1) st).nodeLoadFailed = true := by
  have hstep := processItem_failed_eq env camera halfHeight maxLoadsToGPU pointBudget
    frustums cameraPositions st qi rest hbud hB hgeo hload hfail
  have hloop : Potree.travLoop env camera halfHeight maxLoadsToGPU pointBudget frustums
      cameraPositions (fuel + 1) st
      = Potree.travLoop env camera halfHeight maxLoadsToGPU pointBudget frustums
        cameraPositions fuel
        { st with
          numVisiblePoints := st.numVisiblePoints + qi.node.numPoints
          pointClouds := updateCloud st.pointClouds qi.pointCloudIndex
            (fun pc => { pc with numVisiblePoints := pc.numVisiblePoints + qi.node.numPoints })
          queue := rest
          nodeLoadFailed := true } := by
    simp only [Potree.travLoop, hpop]
    rw [hstep]
    rfl
  obtain ⟨x1, x2, x3⟩ := travLoop_excludes env camera halfHeight maxLoadsToGPU pointBudget
    frustums cameraPositions qi.node.subtreeIds fuel
    { st with
      numVisiblePoints := st.numVisiblePoints + qi.node.numPoints
      pointClouds := updateCloud st.pointClouds qi.pointCloudIndex
        (fun pc => { pc with numVisiblePoints := pc.numVisiblePoints + qi.node.numPoints })
      queue := rest
      nodeLoadFailed := true }
    hqd hvd hud rfl
  refine ⟨by rw [hstep], ?_, ?_, ?_⟩
  · rw [hloop]
    exact x1
  · rw [hloop]
    exact x2
  · rw [hloop]
    exact x3

/-- C7: expanding a node's children pushes exactly the spec's items: per
present child, the projected pixel radius is `radius * halfHeight /
(tan(fovRadians/2) * distance)` for a perspective camera and `radius *
2 * halfHeight / (orthoTop - orthoBottom)` for an orthographic one; a
child below the cloud's `minNodePixelSize` is skipped, the rest are
appended with weight `maxValue` when the camera is inside the bounding
sphere (`distance < radius`), else projected radius plus `1/distance`. -/
theorem claim_C7_child_projection (env : Env β V K) (camera : CameraM K)
    (halfHeight : K) (queueItem : QueueItem β V K)
    (priorityQueue : List (QueueItem β V K)) (pointCloud : PointCloudM β V K)
    (node : PCNode β V K) (cameraPosition : V) :
    Potree.updateChildVisibility env camera halfHeight queueItem priorityQueue
        pointCloud node cameraPosition =
      priorityQueue ++ node.children.filterMap
        (specChildItem env camera halfHeight pointCloud queueItem.pointCloudIndex
          cameraPosition node) :=
  updateChildVisibility_eq_spec env camera halfHeight queueItem priorityQueue
    pointCloud node cameraPosition

end Claims

section ClaimWitnesses

theorem claim_C9_witness :
    (Potree.processItem envC1 camC1 1 2 100 [fun _ => true] [()] stF qiF
        restF).1.numVisiblePoints = stF.numVisiblePoints + nodeF.numPoints ∧
    (Potree.processItem envC1 camC1 1 2 100 [fun _ => true] [()] stF qiF
        restF).1.nodeLoadFailed = true ∧
    (Potree.processItem envC1 camC1 1 2 100 [fun _ => true] [()] stF qiF restF).2 = false := by
  have h := claim_C9_failed_consumes_budget envC1 camC1 1 2 100 [fun _ => true] [()]
    stF qiF restF (by decide) (by decide) (by decide) rfl rfl
  exact ⟨h.1, h.2.2.2.2.1, h.2.2.2.2.2⟩

theorem claim_C6_witness :
    (Potree.processItem envC1 camC1 1 2 100 [fun _ => true] [()] stF6 qiF []).1.queue
        = [] ∧
    (Potree.travLoop envC1 camC1 1 2 100 [fun _ => true] [()] 4 stF6).nodeLoadFailed
        = true := by
  have h := claim_C6_failed_subtree_excluded envC1 camC1 1 2 100 [fun _ => true] [()]
    3 stF6 qiF [] rfl (by decide) (by decide) (by decide) rfl rfl
    (by intro it hit; simp at hit)
    (by intro m hm; simp [stF6, stF] at hm)
    (by intro m hm; simp [stF6, stF] at hm)
  exact ⟨h.1, h.2.2.2⟩

end ClaimWitnesses
